import Mathlib

/-!
Shallow embedding of the group-membership and poll-voting subsystem of the
social_media_app backend (`app/models/group.py`, `app/services/group_service.py`,
`app/models/poll.py`, `app/services/poll_service.py`, `app/utils/exceptions.py`,
`app/middleware/error_handler.py`), together with theorems checking the
claims of the specification about it.

Strings keep the Turkish vocabulary of the source: roles are
"uye" / "moderator" / "yonetici", statuses are "aktif" / "beklemede" /
"engellendi", visibilities are "acik" / "kapali" / "gizli".
Timestamps are modelled as natural numbers passed in explicitly.
-/

namespace SocialApp

/-- `GroupMember` map attribute (`app/models/group.py`): user id, role,
join date, membership status. -/
structure GroupMember where
  kullanici_id : String
  rol : String
  katilma_tarihi : Nat
  durum : String
deriving DecidableEq, Repr

/-- `GroupModel` (`app/models/group.py`), restricted to the fields the
membership engine and the listing filters read: creator id, name,
optional description, visibility, categories, member list, member count,
and the `BaseModel` soft-delete flag.  `uye_sayisi` is an unbounded
Python integer. -/
structure Group where
  olusturan_id : String
  grup_adi : String
  aciklama : Option String
  gizlilik : String
  kategoriler : List String
  uyeler : List GroupMember
  uye_sayisi : Int
  is_active : Bool
deriving DecidableEq, Repr

/-- Domain error classes of `app/utils/exceptions.py`; each carries its
message. -/
inductive ApiErr where
  | notFound (msg : String)
  | validation (msg : String)
  | forbidden (msg : String)
  | authError (msg : String)
deriving DecidableEq, Repr

/-- HTTP status code each `ApiError` subclass is constructed with in
`app/utils/exceptions.py` (and that `register_error_handlers` returns). -/
def httpStatus : ApiErr → Nat
  | .notFound _ => 404
  | .validation _ => 400
  | .forbidden _ => 403
  | .authError _ => 401

/-- Any Python exception reaching the Flask error handlers: either one of
the domain `ApiError`s or an arbitrary other exception. -/
inductive PyExc where
  | api (e : ApiErr)
  | other (msg : String)
deriving DecidableEq, Repr

/-- Status code produced by `register_error_handlers`
(`app/middleware/error_handler.py`): `ApiError`s answer with their own
`status_code`, any unhandled exception answers 500. -/
def boundaryStatus : PyExc → Nat
  | .api e => httpStatus e
  | .other _ => 500

/-- The membership-check loop of `GroupService.join_group`: walk the member
list; on the first entry carrying the caller id whose status is one of the
three known ones, raise the matching `ValidationError`. -/
def join_check : List GroupMember → String → Option ApiErr
  | [], _ => none
  | uye :: rest, uid =>
    if uye.kullanici_id = uid then
      if uye.durum = "aktif" then some (.validation "Zaten grup uyesisiniz")
      else if uye.durum = "beklemede" then some (.validation "Uyelik basvurunuz onay bekliyor")
      else if uye.durum = "engellendi" then some (.validation "Bu gruba katilmaniz engellendi")
      else join_check rest uid
    else join_check rest uid

/-- `GroupService.join_group` (`app/services/group_service.py`), as a pure
function from the group record to either an error or the updated record
paired with the membership status it reports. -/
def join_group (g : Group) (user_id : String) (now : Nat) : Except ApiErr (Group × String) :=
  if g.is_active = false then .error (.notFound "Grup bulunamadi")
  else
    match join_check g.uyeler user_id with
    | some e => .error e
    | none =>
      let durum := if g.gizlilik = "kapali" then "beklemede" else "aktif"
      let yeni_uye : GroupMember :=
        { kullanici_id := user_id, rol := "uye", katilma_tarihi := now, durum := durum }
      let g' := { g with
        uyeler := g.uyeler ++ [yeni_uye],
        uye_sayisi := if durum = "aktif" then g.uye_sayisi + 1 else g.uye_sayisi }
      .ok (g', durum)

/-- Remove the first member with the given id, returning it and the rest of
the list (the `enumerate`/`pop` pattern of `GroupService.leave_group`). -/
def remove_first : List GroupMember → String → Option (GroupMember × List GroupMember)
  | [], _ => none
  | uye :: rest, uid =>
    if uye.kullanici_id = uid then some (uye, rest)
    else
      match remove_first rest uid with
      | none => none
      | some (m, rest') => some (m, uye :: rest')

/-- `GroupService.leave_group`: the creator may not leave; a non-member gets
a validation error; otherwise the first matching entry is removed and, if it
was active, the member count is decremented with a floor of 1. -/
def leave_group (g : Group) (user_id : String) : Except ApiErr Group :=
  if g.is_active = false then .error (.notFound "Grup bulunamadi")
  else if g.olusturan_id = user_id then .error (.forbidden "Grup kurucusu gruptan ayrilamaz")
  else
    match remove_first g.uyeler user_id with
    | none => .error (.validation "Bu grubun uyesi degilsiniz")
    | some (uye, rest) =>
      .ok { g with
        uyeler := rest,
        uye_sayisi := if uye.durum = "aktif" then max 1 (g.uye_sayisi - 1) else g.uye_sayisi }

/-- Find the first member entry with the given id (the linear scans of the
service methods). -/
def find_member : List GroupMember → String → Option GroupMember
  | [], _ => none
  | uye :: rest, uid => if uye.kullanici_id = uid then some uye else find_member rest uid

/-- Set the role of the first matching entry (in-place mutation of the scanned
reference in `GroupService.update_member_role`). -/
def set_rol_first : List GroupMember → String → String → List GroupMember
  | [], _, _ => []
  | uye :: rest, uid, r =>
    if uye.kullanici_id = uid then { uye with rol := r } :: rest
    else uye :: set_rol_first rest uid r

/-- Set the status of the first matching entry (in-place mutation of the scanned
reference in `GroupService.approve_membership`). -/
def set_durum_first : List GroupMember → String → String → List GroupMember
  | [], _, _ => []
  | uye :: rest, uid, d =>
    if uye.kullanici_id = uid then { uye with durum := d } :: rest
    else uye :: set_durum_first rest uid d

/-- Permission check of `GroupService.update_member_role`: group creator, or
an active member with role `yonetici`. -/
def role_update_perm (g : Group) (user_id : String) : Bool :=
  g.olusturan_id = user_id ||
    g.uyeler.any (fun uye =>
      uye.kullanici_id = user_id && uye.rol = "yonetici" && uye.durum = "aktif")

/-- `GroupService.update_member_role`. -/
def update_member_role (g : Group) (user_id target_user_id new_role : String) :
    Except ApiErr Group :=
  if ¬ (new_role = "uye" ∨ new_role = "moderator" ∨ new_role = "yonetici") then
    .error (.validation "Gecersiz rol")
  else if g.is_active = false then .error (.notFound "Grup bulunamadi")
  else if role_update_perm g user_id = false then
    .error (.forbidden "Uyelerin rollerini degistirme yetkiniz yok")
  else
    match find_member g.uyeler target_user_id with
    | none => .error (.notFound "Kullanici bu grubun uyesi degil")
    | some target_member =>
      if target_member.durum ≠ "aktif" then
        .error (.validation "Sadece aktif uyelerin rolleri degistirilebilir")
      else if target_user_id = g.olusturan_id then
        .error (.forbidden "Grup kurucusunun rolu degistirilemez")
      else
        .ok { g with uyeler := set_rol_first g.uyeler target_user_id new_role }

/-- Permission check of `GroupService.approve_membership`: group creator, or
an active member with role `yonetici` or `moderator`. -/
def approve_perm (g : Group) (user_id : String) : Bool :=
  g.olusturan_id = user_id ||
    g.uyeler.any (fun uye =>
      uye.kullanici_id = user_id &&
        (uye.rol = "yonetici" || uye.rol = "moderator") && uye.durum = "aktif")

/-- `GroupService.approve_membership`.  Accepting sets the first matching
status of the first matching entry to active and increments the count; rejecting filters out
every entry carrying the target id and leaves the count alone. -/
def approve_membership (g : Group) (user_id target_user_id : String) (approve : Bool) :
    Except ApiErr Group :=
  if g.is_active = false then .error (.notFound "Grup bulunamadi")
  else if approve_perm g user_id = false then
    .error (.forbidden "Uyelik basvurularini yonetme yetkiniz yok")
  else
    match find_member g.uyeler target_user_id with
    | none => .error (.notFound "Kullanici bu gruba basvurmamis")
    | some target_member =>
      if target_member.durum ≠ "beklemede" then
        .error (.validation "Bu kullanicinin onay bekleyen bir basvurusu yok")
      else if approve then
        .ok { g with
          uyeler := set_durum_first g.uyeler target_user_id "aktif",
          uye_sayisi := g.uye_sayisi + 1 }
      else
        .ok { g with uyeler := g.uyeler.filter (fun uye => uye.kullanici_id ≠ target_user_id) }

/-- `GroupModel.add_member` (`app/models/group.py`): if the user is already
in the list, overwrite role and status of the first matching entry in place
(the count is not touched); otherwise append a fresh entry and increment the
count exactly when the new status is active. -/
def add_member (g : Group) (kullanici_id rol durum : String) (now : Nat) : Group :=
  if g.uyeler.any (fun uye => uye.kullanici_id = kullanici_id) then
    { g with uyeler :=
        (set_durum_first (set_rol_first g.uyeler kullanici_id rol) kullanici_id durum) }
  else
    { g with
      uyeler := g.uyeler ++
        [{ kullanici_id := kullanici_id, rol := rol, katilma_tarihi := now, durum := durum }],
      uye_sayisi := if durum = "aktif" then g.uye_sayisi + 1 else g.uye_sayisi }

/-- The group record built by `GroupService.create_group`: the creator is the
sole member, admin and active, and the count starts at 1. -/
def create_group (user_id grup_adi : String) (aciklama : Option String)
    (gizlilik : String) (kategoriler : List String) (now : Nat) : Group :=
  { olusturan_id := user_id
    grup_adi := grup_adi
    aciklama := aciklama
    gizlilik := gizlilik
    kategoriler := kategoriler
    uyeler := [{ kullanici_id := user_id, rol := "yonetici", katilma_tarihi := now,
                 durum := "aktif" }]
    uye_sayisi := 1
    is_active := true }

/-- The membership transitions named by the spec: self-service join, leave,
administrative approve and role change (through `GroupService`), and the
administrative/seed `GroupModel.add_member` path. -/
inductive Op where
  | joinOp (uid : String) (now : Nat)
  | leaveOp (uid : String)
  | approveOp (actor uid : String) (accept : Bool)
  | setRoleOp (actor uid newRole : String)
  | addMemberOp (uid rol durum : String) (now : Nat)
deriving DecidableEq, Repr

/-- Run one membership transition; `some` is the successfully updated group,
`none` a rejected call (the group is then unchanged). -/
def applyOp : Op → Group → Option Group
  | .joinOp uid now, g =>
    match join_group g uid now with
    | .ok (g', _) => some g'
    | .error _ => none
  | .leaveOp uid, g =>
    match leave_group g uid with
    | .ok g' => some g'
    | .error _ => none
  | .approveOp actor uid accept, g =>
    match approve_membership g actor uid accept with
    | .ok g' => some g'
    | .error _ => none
  | .setRoleOp actor uid newRole, g =>
    match update_member_role g actor uid newRole with
    | .ok g' => some g'
    | .error _ => none
  | .addMemberOp uid rol durum now, g => some (add_member g uid rol durum now)

/-- Number of member entries whose status is active. -/
def activeCount (g : Group) : Nat :=
  (g.uyeler.filter (fun uye => uye.durum = "aktif")).length

/-- The documented count invariant: `uye_sayisi` equals the number of
entries with status `aktif`. -/
def countInv (g : Group) : Prop :=
  g.uye_sayisi = (activeCount g : Int)

instance (g : Group) : Decidable (countInv g) := by
  unfold countInv; infer_instance

/-- The documented creator invariant: the member list holds exactly one
entry carrying the creator id, and that entry has role `yonetici` and
status `aktif`. -/
def creatorInv (g : Group) : Prop :=
  (g.uyeler.filter (fun uye => uye.kullanici_id = g.olusturan_id)).map
      (fun uye => (uye.rol, uye.durum)) = [("yonetici", "aktif")]

instance (g : Group) : Decidable (creatorInv g) := by
  unfold creatorInv; infer_instance

/-- Membership uniqueness: no user id occurs twice in the member list. -/
def uniqueIds (g : Group) : Prop :=
  (g.uyeler.map GroupMember.kullanici_id).Nodup

instance (g : Group) : Decidable (uniqueIds g) := by
  unfold uniqueIds; infer_instance

/-- States reachable from a start state by transitions satisfying a side
condition `ok` on the operation and the state it fires in. -/
inductive Reach (ok : Op → Group → Prop) : Group → Group → Prop
  | refl (g : Group) : Reach ok g g
  | step {g g' g'' : Group} {op : Op} :
      Reach ok g g' → ok op g' → applyOp op g' = some g'' → Reach ok g g''

/-- Side condition forbidding only `add_member` calls that would rewrite the
creator entry to something other than admin/active. -/
def addKeepsCreator : Op → Group → Prop := fun op g =>
  ∀ uid rol durum now, op = Op.addMemberOp uid rol durum now →
    uid ≠ g.olusturan_id ∨ (rol = "yonetici" ∧ durum = "aktif")

/-! ### Member listing (`GroupService.get_group_members`) -/

/-- The fields of `UserModel` the member listing reads. -/
structure UserRec where
  username : String
  profil_resmi_url : Option String
deriving DecidableEq, Repr

/-- One entry of the `members` array built by `get_group_members`. -/
structure MemberDetail where
  user_id : String
  username : String
  profil_resmi_url : Option String
  rol : String
  durum : String
  katilma_tarihi : Nat
deriving DecidableEq, Repr

/-- The member listing response: `members` plus the `meta` fields. -/
structure MembersPage where
  members : List MemberDetail
  total : Nat
  page : Nat
  per_page : Nat
  total_pages : Nat
deriving DecidableEq, Repr

/-- The status/role filter of the listing loop.  Python truthiness: an
absent or empty filter string selects everything. -/
def member_filter (status role : Option String) (uye : GroupMember) : Bool :=
  (match status with
   | none => true
   | some s => if s = "" then true else uye.durum = s) &&
  (match role with
   | none => true
   | some r => if r = "" then true else uye.rol = r)

/-- `GroupService.get_group_members`: filter, count, slice the page window,
then resolve each member against the user store, silently dropping members
whose user record is missing (`DoesNotExist` is swallowed).  The user store
is passed as a lookup function. -/
def get_group_members (g : Group) (page per_page : Nat) (status role : Option String)
    (users : String → Option UserRec) : Except ApiErr MembersPage :=
  if g.is_active = false then .error (.notFound "Grup bulunamadi")
  else
    let filtered := g.uyeler.filter (member_filter status role)
    let total := filtered.length
    let start := (page - 1) * per_page
    let stop := min (start + per_page) total
    let paged := (filtered.drop start).take (stop - start)
    let details := paged.filterMap (fun uye =>
      match users uye.kullanici_id with
      | none => none
      | some u => some { user_id := uye.kullanici_id, username := u.username,
                         profil_resmi_url := u.profil_resmi_url, rol := uye.rol,
                         durum := uye.durum, katilma_tarihi := uye.katilma_tarihi })
    .ok { members := details, total := total, page := page, per_page := per_page,
          total_pages := (total + per_page - 1) / per_page }

/-! ### Group listing (`GroupService.get_all_groups`) -/

/-- Does the list `hay` start with the list `needle`? -/
def startsWithL : List Char → List Char → Bool
  | _, [] => true
  | [], _ :: _ => false
  | c :: cs, d :: ds => c = d && startsWithL cs ds

/-- Does `needle` occur contiguously inside `hay`? -/
def containsL : List Char → List Char → Bool
  | [], needle => needle.isEmpty
  | c :: rest, needle => startsWithL (c :: rest) needle || containsL rest needle

/-- Python `needle in hay` on strings. -/
def strIn (needle hay : String) : Bool := containsL hay.data needle.data

/-- The `match_filters` closure of `get_all_groups`: active flag, search over
lower-cased name/description, category intersection.  Python truthiness
again: empty search text or an empty category list disables the filter. -/
def match_filters (search : Option String) (kategoriler : Option (List String))
    (g : Group) : Bool :=
  if g.is_active = false then false
  else
    (match search with
     | none => true
     | some s =>
       if s = "" then true
       else
         let sl := s.toLower
         if strIn sl g.grup_adi.toLower = false ∧
             (g.aciklama.getD "" = "" ∨ strIn sl ((g.aciklama.getD "").toLower) = false) then
           false
         else true) &&
    (match kategoriler with
     | none => true
     | some kats =>
       if kats = [] then true
       else kats.any (fun kat => g.kategoriler.contains kat))

/-- The filter-count-and-window loop of `get_all_groups`: the accumulator is
the page being built and the running count of matching groups. -/
def collect_groups (gs : List Group) (f : Group → Bool) (page per_page : Nat) :
    List Group × Nat :=
  gs.foldl (fun acc g =>
    if f g then
      let tc := acc.2 + 1
      (if (page - 1) * per_page < tc ∧ tc ≤ page * per_page then acc.1 ++ [g] else acc.1, tc)
    else acc) ([], 0)

/-- The group listing response of `get_all_groups`. -/
structure GroupsPage where
  groups : List Group
  total : Nat
  page : Nat
  per_page : Nat
  total_pages : Nat
deriving DecidableEq, Repr

/-- `GroupService.get_all_groups`.  The store scan is passed in as either a
list of records or a raised exception; the `except Exception` branch of the
source returns an empty success page instead of propagating the error. -/
def get_all_groups (scan : Except String (List Group)) (page per_page : Nat)
    (search : Option String) (kategoriler : Option (List String)) : GroupsPage :=
  match scan with
  | .error _ =>
    { groups := [], total := 0, page := page, per_page := per_page, total_pages := 0 }
  | .ok gs =>
    let res := collect_groups gs (match_filters search kategoriler) page per_page
    { groups := res.1, total := res.2, page := page, per_page := per_page,
      total_pages := (res.2 + per_page - 1) / per_page }

/-! ### Polls (`app/models/poll.py`) -/

/-- `PollOption` map attribute: id, text, tally. -/
structure PollOption where
  option_id : String
  metin : String
  oy_sayisi : Int
deriving DecidableEq, Repr

/-- `PollVote` map attribute: voter, chosen option, date. -/
structure PollVote where
  kullanici_id : String
  secenek_id : String
  tarih : Nat
deriving DecidableEq, Repr

/-- `PollModel`, restricted to the fields `add_vote` touches. -/
structure Poll where
  secenekler : List PollOption
  oylar : List PollVote
deriving DecidableEq, Repr

/-- Remove the first vote by the given user, returning it and the remaining
votes (the `enumerate`/`pop` loop of `PollModel.add_vote`). -/
def remove_first_vote : List PollVote → String → Option (PollVote × List PollVote)
  | [], _ => none
  | oy :: rest, uid =>
    if oy.kullanici_id = uid then some (oy, rest)
    else
      match remove_first_vote rest uid with
      | none => none
      | some (o, rest') => some (o, oy :: rest')

/-- Decrement the tally of the first option with the given id (no-op when
the id matches no option). -/
def dec_first : List PollOption → String → List PollOption
  | [], _ => []
  | o :: rest, sid =>
    if o.option_id = sid then { o with oy_sayisi := o.oy_sayisi - 1 } :: rest
    else o :: dec_first rest sid

/-- Increment the tally of the first option with the given id. -/
def inc_first : List PollOption → String → List PollOption
  | [], _ => []
  | o :: rest, sid =>
    if o.option_id = sid then { o with oy_sayisi := o.oy_sayisi + 1 } :: rest
    else o :: inc_first rest sid

/-- `PollModel.add_vote`: reject an unknown option; otherwise drop the first
previous vote of this user (decrementing the tally of its option), append
the new vote and increment the tally of the chosen option.  The Bool is the
return value of the Python method. -/
def add_vote (p : Poll) (kullanici_id secenek_id : String) (now : Nat) : Bool × Poll :=
  if p.secenekler.any (fun o => o.option_id = secenek_id) = false then (false, p)
  else
    match remove_first_vote p.oylar kullanici_id with
    | none =>
      (true, { secenekler := inc_first p.secenekler secenek_id,
               oylar := p.oylar ++ [{ kullanici_id := kullanici_id,
                                      secenek_id := secenek_id, tarih := now }] })
    | some (eski, rest) =>
      (true, { secenekler := inc_first (dec_first p.secenekler eski.secenek_id) secenek_id,
               oylar := rest ++ [{ kullanici_id := kullanici_id,
                                   secenek_id := secenek_id, tarih := now }] })

/-- Number of vote entries for a given option id. -/
def votesFor (p : Poll) (sid : String) : Nat :=
  (p.oylar.filter (fun oy => oy.secenek_id = sid)).length

/-- Number of vote entries by a given user. -/
def userVotes (p : Poll) (uid : String) : Nat :=
  (p.oylar.filter (fun oy => oy.kullanici_id = uid)).length

/-- Tally invariant: every option counts exactly the vote entries that name
it. -/
def tallyInv (p : Poll) : Prop :=
  ∀ o ∈ p.secenekler, o.oy_sayisi = (votesFor p o.option_id : Int)

instance (p : Poll) : Decidable (tallyInv p) := by
  unfold tallyInv; infer_instance

/-- Tally of the first option carrying the given id. -/
def getTally (p : Poll) (sid : String) : Option Int :=
  (p.secenekler.find? (fun o => o.option_id = sid)).map PollOption.oy_sayisi

/-! ### Small helpers and concrete inputs used by witnesses -/

/-- Active-entry count of a bare member list. -/
def aCountL (l : List GroupMember) : Nat :=
  (l.filter (fun uye => uye.durum = "aktif")).length

/-- Number of entries of a vote list naming a given option id. -/
def vCountL (vs : List PollVote) (s : String) : Nat :=
  (vs.filter (fun oy => oy.secenek_id = s)).length

/-- Number of entries of a vote list cast by a given user. -/
def uCountL (vs : List PollVote) (u : String) : Nat :=
  (vs.filter (fun oy => oy.kullanici_id = u)).length

/-- Is a service result a raised `ValidationError`? -/
def isValidationErr {α : Type} : Except ApiErr α → Bool
  | .error (.validation _) => true
  | _ => false

/-- An open group freshly created by user `a`. -/
def gOpen : Group := create_group "a" "Takim" none "acik" [] 0

/-- A closed group freshly created by user `a`. -/
def gClosed : Group := create_group "a" "Takim" none "kapali" [] 0

/-- A closed group where user `b` has a pending application. -/
def gPend : Group :=
  { olusturan_id := "a", grup_adi := "Takim", aciklama := none, gizlilik := "kapali",
    kategoriler := [],
    uyeler := [{ kullanici_id := "a", rol := "yonetici", katilma_tarihi := 0, durum := "aktif" },
               { kullanici_id := "b", rol := "uye", katilma_tarihi := 1, durum := "beklemede" }],
    uye_sayisi := 1, is_active := true }

/-- An open group where user `b` is an active plain member. -/
def gTwo : Group :=
  { olusturan_id := "a", grup_adi := "Takim", aciklama := none, gizlilik := "acik",
    kategoriler := [],
    uyeler := [{ kullanici_id := "a", rol := "yonetici", katilma_tarihi := 0, durum := "aktif" },
               { kullanici_id := "b", rol := "uye", katilma_tarihi := 1, durum := "aktif" }],
    uye_sayisi := 2, is_active := true }

/-- A two-option poll with no votes yet. -/
def pollEx : Poll :=
  { secenekler := [{ option_id := "o1", metin := "evet", oy_sayisi := 0 },
                   { option_id := "o2", metin := "hayir", oy_sayisi := 0 }],
    oylar := [] }

/-- A user store that only knows user `a`. -/
def usersEx : String → Option UserRec :=
  fun uid => if uid = "a" then some { username := "ayse", profil_resmi_url := none } else none

/-! ### Lemmas about the linear scans -/

theorem join_check_eq_none {l : List GroupMember} {u : String}
    (h : ∀ x ∈ l, x.kullanici_id ≠ u) : join_check l u = none := by
  induction l with
  | nil => rfl
  | cons uye rest ih =>
    have hne : uye.kullanici_id ≠ u := h uye (List.mem_cons_self _ _)
    simp only [join_check, if_neg hne]
    exact ih (fun x hx => h x (List.mem_cons_of_mem _ hx))

theorem join_check_none_durum {l : List GroupMember} {u : String}
    (h : join_check l u = none) :
    ∀ x ∈ l, x.kullanici_id = u →
      x.durum ≠ "aktif" ∧ x.durum ≠ "beklemede" ∧ x.durum ≠ "engellendi" := by
  induction l with
  | nil => intro x hx; exact absurd hx (List.not_mem_nil x)
  | cons uye rest ih =>
    intro x hx hid
    rcases List.mem_cons.mp hx with hx | hx
    · subst hx
      rw [join_check, if_pos hid] at h
      by_cases h1 : x.durum = "aktif"
      · rw [if_pos h1] at h; exact absurd h (by simp)
      · rw [if_neg h1] at h
        by_cases h2 : x.durum = "beklemede"
        · rw [if_pos h2] at h; exact absurd h (by simp)
        · rw [if_neg h2] at h
          by_cases h3 : x.durum = "engellendi"
          · rw [if_pos h3] at h; exact absurd h (by simp)
          · exact ⟨h1, h2, h3⟩
    · rw [join_check] at h
      by_cases hid0 : uye.kullanici_id = u
      · rw [if_pos hid0] at h
        by_cases h1 : uye.durum = "aktif"
        · rw [if_pos h1] at h; exact absurd h (by simp)
        · rw [if_neg h1] at h
          by_cases h2 : uye.durum = "beklemede"
          · rw [if_pos h2] at h; exact absurd h (by simp)
          · rw [if_neg h2] at h
            by_cases h3 : uye.durum = "engellendi"
            · rw [if_pos h3] at h; exact absurd h (by simp)
            · rw [if_neg h3] at h; exact ih h x hx hid
      · rw [if_neg hid0] at h; exact ih h x hx hid

theorem join_check_shape {l : List GroupMember} {u : String} {e : ApiErr}
    (h : join_check l u = some e) : ∃ msg, e = ApiErr.validation msg := by
  induction l with
  | nil => exact absurd h (by simp [join_check])
  | cons uye rest ih =>
    rw [join_check] at h
    by_cases hid : uye.kullanici_id = u
    · rw [if_pos hid] at h
      by_cases h1 : uye.durum = "aktif"
      · rw [if_pos h1] at h
        exact ⟨"Zaten grup uyesisiniz", by injection h with h; exact h.symm⟩
      · rw [if_neg h1] at h
        by_cases h2 : uye.durum = "beklemede"
        · rw [if_pos h2] at h
          exact ⟨"Uyelik basvurunuz onay bekliyor", by injection h with h; exact h.symm⟩
        · rw [if_neg h2] at h
          by_cases h3 : uye.durum = "engellendi"
          · rw [if_pos h3] at h
            exact ⟨"Bu gruba katilmaniz engellendi", by injection h with h; exact h.symm⟩
          · rw [if_neg h3] at h; exact ih h
    · rw [if_neg hid] at h; exact ih h

theorem remove_first_eq_some {l : List GroupMember} {u : String} {m : GroupMember}
    {rest : List GroupMember} (h : remove_first l u = some (m, rest)) :
    ∃ pre post, l = pre ++ m :: post ∧ rest = pre ++ post ∧ m.kullanici_id = u ∧
      ∀ x ∈ pre, x.kullanici_id ≠ u := by
  induction l generalizing rest with
  | nil => exact absurd h (by simp [remove_first])
  | cons uye tail ih =>
    rw [remove_first] at h
    by_cases hid : uye.kullanici_id = u
    · rw [if_pos hid] at h
      simp only [Option.some.injEq, Prod.mk.injEq] at h
      obtain ⟨h1, h2⟩ := h
      subst h1; subst h2
      exact ⟨[], tail, by simp, by simp, hid, by simp⟩
    · rw [if_neg hid] at h
      cases hrec : remove_first tail u with
      | none => rw [hrec] at h; exact absurd h (by simp)
      | some pr =>
        obtain ⟨m0, rest0⟩ := pr
        rw [hrec] at h
        simp only [Option.some.injEq, Prod.mk.injEq] at h
        obtain ⟨h1, h2⟩ := h
        subst h1
        obtain ⟨pre, post, hl, hrest, hmu, hpre⟩ := ih hrec
        refine ⟨uye :: pre, post, by simp [hl], by simp [← h2, hrest], hmu, ?_⟩
        intro x hx
        rcases List.mem_cons.mp hx with hx | hx
        · exact hx ▸ hid
        · exact hpre x hx

theorem remove_first_append {pre post : List GroupMember} {u : String} {m : GroupMember}
    (hpre : ∀ x ∈ pre, x.kullanici_id ≠ u) (hm : m.kullanici_id = u) :
    remove_first (pre ++ m :: post) u = some (m, pre ++ post) := by
  induction pre with
  | nil => simp [remove_first, hm]
  | cons uye rest ih =>
    have hne : uye.kullanici_id ≠ u := hpre uye (List.mem_cons_self _ _)
    have ih2 := ih (fun x hx => hpre x (List.mem_cons_of_mem _ hx))
    simp only [List.cons_append, remove_first, if_neg hne, List.append_eq, ih2]

theorem remove_first_eq_none {l : List GroupMember} {u : String}
    (h : ∀ x ∈ l, x.kullanici_id ≠ u) : remove_first l u = none := by
  induction l with
  | nil => rfl
  | cons uye rest ih =>
    have hne : uye.kullanici_id ≠ u := h uye (List.mem_cons_self _ _)
    have ih2 := ih (fun x hx => h x (List.mem_cons_of_mem _ hx))
    simp only [remove_first, if_neg hne, List.append_eq, ih2]

theorem find_member_append {pre post : List GroupMember} {u : String} {m : GroupMember}
    (hpre : ∀ x ∈ pre, x.kullanici_id ≠ u) (hm : m.kullanici_id = u) :
    find_member (pre ++ m :: post) u = some m := by
  induction pre with
  | nil => simp [find_member, hm]
  | cons uye rest ih =>
    have hne : uye.kullanici_id ≠ u := hpre uye (List.mem_cons_self _ _)
    simp only [List.cons_append, find_member, if_neg hne]
    exact ih (fun x hx => hpre x (List.mem_cons_of_mem _ hx))

theorem find_member_eq_none {l : List GroupMember} {u : String}
    (h : ∀ x ∈ l, x.kullanici_id ≠ u) : find_member l u = none := by
  induction l with
  | nil => rfl
  | cons uye rest ih =>
    have hne : uye.kullanici_id ≠ u := h uye (List.mem_cons_self _ _)
    simp only [find_member, if_neg hne]
    exact ih (fun x hx => h x (List.mem_cons_of_mem _ hx))

theorem find_member_eq_some {l : List GroupMember} {u : String} {m : GroupMember}
    (h : find_member l u = some m) :
    ∃ pre post, l = pre ++ m :: post ∧ m.kullanici_id = u ∧
      ∀ x ∈ pre, x.kullanici_id ≠ u := by
  induction l with
  | nil => exact absurd h (by simp [find_member])
  | cons uye rest ih =>
    rw [find_member] at h
    by_cases hid : uye.kullanici_id = u
    · rw [if_pos hid] at h
      injection h with h
      exact ⟨[], rest, by simp [h], h ▸ hid, by simp⟩
    · rw [if_neg hid] at h
      obtain ⟨pre, post, hl, hmu, hpre⟩ := ih h
      refine ⟨uye :: pre, post, by simp [hl], hmu, ?_⟩
      intro x hx
      rcases List.mem_cons.mp hx with hx | hx
      · exact hx ▸ hid
      · exact hpre x hx

theorem set_rol_first_append {pre post : List GroupMember} {u r : String} {m : GroupMember}
    (hpre : ∀ x ∈ pre, x.kullanici_id ≠ u) (hm : m.kullanici_id = u) :
    set_rol_first (pre ++ m :: post) u r = pre ++ { m with rol := r } :: post := by
  induction pre with
  | nil => simp [set_rol_first, hm]
  | cons uye rest ih =>
    have hne : uye.kullanici_id ≠ u := hpre uye (List.mem_cons_self _ _)
    have ih2 := ih (fun x hx => hpre x (List.mem_cons_of_mem _ hx))
    simp only [List.cons_append, set_rol_first, if_neg hne, List.append_eq, ih2]

theorem set_durum_first_append {pre post : List GroupMember} {u d : String} {m : GroupMember}
    (hpre : ∀ x ∈ pre, x.kullanici_id ≠ u) (hm : m.kullanici_id = u) :
    set_durum_first (pre ++ m :: post) u d = pre ++ { m with durum := d } :: post := by
  induction pre with
  | nil => simp [set_durum_first, hm]
  | cons uye rest ih =>
    have hne : uye.kullanici_id ≠ u := hpre uye (List.mem_cons_self _ _)
    have ih2 := ih (fun x hx => hpre x (List.mem_cons_of_mem _ hx))
    simp only [List.cons_append, set_durum_first, if_neg hne, List.append_eq, ih2]

/-! ### Counting and frame lemmas -/

theorem aCountL_append (l1 l2 : List GroupMember) :
    aCountL (l1 ++ l2) = aCountL l1 + aCountL l2 := by
  simp [aCountL, List.filter_append]

theorem aCountL_cons (m : GroupMember) (l : List GroupMember) :
    aCountL (m :: l) = (if m.durum = "aktif" then 1 else 0) + aCountL l := by
  by_cases h : m.durum = "aktif" <;> simp [aCountL, List.filter_cons, h, Nat.add_comm]

theorem aCountL_set_rol (l : List GroupMember) (u r : String) :
    aCountL (set_rol_first l u r) = aCountL l := by
  induction l with
  | nil => rfl
  | cons uye rest ih =>
    by_cases hid : uye.kullanici_id = u
    · simp [set_rol_first, if_pos hid, aCountL_cons]
    · simp [set_rol_first, if_neg hid, aCountL_cons, ih]

theorem nodup_split {pre post : List GroupMember} {m : GroupMember} {u : String}
    (huniq : ((pre ++ m :: post).map GroupMember.kullanici_id).Nodup)
    (hm : m.kullanici_id = u) :
    (∀ x ∈ pre, x.kullanici_id ≠ u) ∧ ∀ x ∈ post, x.kullanici_id ≠ u := by
  rw [List.map_append, List.nodup_append] at huniq
  obtain ⟨hpre, hcons, hdisj⟩ := huniq
  rw [List.map_cons, List.nodup_cons] at hcons
  constructor
  · intro x hx hxu
    exact hdisj (List.mem_map_of_mem _ hx) (by simp [hxu, hm])
  · intro x hx hxu
    apply hcons.1
    rw [hm, ← hxu]
    exact List.mem_map_of_mem _ hx

theorem filter_id_set_rol (l : List GroupMember) {u : String} (c : String) (r : String)
    (h : u ≠ c) :
    (set_rol_first l u r).filter (fun x => x.kullanici_id = c) =
      l.filter (fun x => x.kullanici_id = c) := by
  induction l with
  | nil => rfl
  | cons uye rest ih =>
    by_cases hid : uye.kullanici_id = u
    · have hne : ¬ (uye.kullanici_id = c) := by rw [hid]; exact h
      simp only [set_rol_first, if_pos hid]
      simp [List.filter_cons, hne]
    · simp only [set_rol_first, if_neg hid]
      by_cases hc : uye.kullanici_id = c <;> simp [List.filter_cons, hc, ih]

theorem filter_id_set_durum (l : List GroupMember) {u : String} (c : String) (d : String)
    (h : u ≠ c) :
    (set_durum_first l u d).filter (fun x => x.kullanici_id = c) =
      l.filter (fun x => x.kullanici_id = c) := by
  induction l with
  | nil => rfl
  | cons uye rest ih =>
    by_cases hid : uye.kullanici_id = u
    · have hne : ¬ (uye.kullanici_id = c) := by rw [hid]; exact h
      simp only [set_durum_first, if_pos hid]
      simp [List.filter_cons, hne]
    · simp only [set_durum_first, if_neg hid]
      by_cases hc : uye.kullanici_id = c <;> simp [List.filter_cons, hc, ih]

theorem filter_singleton_split {l : List GroupMember} {p : GroupMember → Bool}
    {c : GroupMember} (h : l.filter p = [c]) :
    ∃ pre post, l = pre ++ c :: post ∧ (∀ x ∈ pre, p x = false) ∧
      (∀ x ∈ post, p x = false) ∧ p c = true := by
  induction l with
  | nil => exact absurd h (by simp)
  | cons uye rest ih =>
    rw [List.filter_cons] at h
    by_cases hp : p uye
    · rw [if_pos hp] at h
      simp only [List.cons.injEq] at h
      obtain ⟨h1, h2⟩ := h
      subst h1
      refine ⟨[], rest, by simp, by simp, ?_, hp⟩
      intro x hx
      have : x ∈ rest.filter p → False := by rw [h2]; simp
      rcases hq : p x with _ | _
      · rfl
      · exact absurd (List.mem_filter.mpr ⟨hx, hq⟩) this
    · rw [if_neg hp] at h
      obtain ⟨pre, post, hl, hpre, hpost, hc⟩ := ih h
      exact ⟨uye :: pre, post, by simp [hl], by
        intro x hx
        rcases List.mem_cons.mp hx with hx | hx
        · subst hx; exact Bool.eq_false_iff.mpr hp
        · exact hpre x hx, hpost, hc⟩

theorem exists_first_split {α : Type} (p : α → Bool) {l : List α}
    (h : l.any p = true) :
    ∃ pre m post, l = pre ++ m :: post ∧ p m = true ∧ ∀ x ∈ pre, p x = false := by
  induction l with
  | nil => exact absurd h (by simp)
  | cons a rest ih =>
    by_cases hp : p a
    · exact ⟨[], a, rest, by simp, hp, by simp⟩
    · have hrest : rest.any p = true := by
        rcases List.any_eq_true.mp h with ⟨x, hx, hpx⟩
        rcases List.mem_cons.mp hx with hx | hx
        · exact absurd (hx ▸ hpx) hp
        · exact List.any_eq_true.mpr ⟨x, hx, hpx⟩
      obtain ⟨pre, m, post, hl, hm, hpre⟩ := ih hrest
      refine ⟨a :: pre, m, post, by simp [hl], hm, ?_⟩
      intro x hx
      rcases List.mem_cons.mp hx with hx | hx
      · subst hx; exact Bool.eq_false_iff.mpr hp
      · exact hpre x hx

theorem creatorInv_exists {g : Group} (h : creatorInv g) :
    ∃ c ∈ g.uyeler, c.kullanici_id = g.olusturan_id ∧ c.rol = "yonetici" ∧
      c.durum = "aktif" := by
  unfold creatorInv at h
  rcases hf : g.uyeler.filter (fun uye => uye.kullanici_id = g.olusturan_id) with _ | ⟨c, rest⟩
  · rw [hf] at h; exact absurd h (by simp)
  · rw [hf] at h
    simp only [List.map_cons, List.cons.injEq, Prod.mk.injEq] at h
    have hcmem : c ∈ g.uyeler.filter (fun uye => uye.kullanici_id = g.olusturan_id) := by
      rw [hf]; exact List.mem_cons_self _ _
    have := List.mem_filter.mp hcmem
    exact ⟨c, this.1, by simpa using this.2, h.1.1, h.1.2⟩

/-! ### Inversion lemmas for the service operations -/

theorem join_group_ok {g g' : Group} {u d : String} {now : Nat}
    (h : join_group g u now = .ok (g', d)) :
    g.is_active = true ∧ join_check g.uyeler u = none ∧
    d = (if g.gizlilik = "kapali" then "beklemede" else "aktif") ∧
    g' = { g with
      uyeler := g.uyeler ++
        [{ kullanici_id := u, rol := "uye", katilma_tarihi := now, durum := d }],
      uye_sayisi := if d = "aktif" then g.uye_sayisi + 1 else g.uye_sayisi } := by
  unfold join_group at h
  by_cases ha : g.is_active = false
  · rw [if_pos ha] at h; exact absurd h (by simp)
  · rw [if_neg ha] at h
    have ha2 : g.is_active = true := by revert ha; cases g.is_active <;> simp
    cases hjc : join_check g.uyeler u with
    | some e => rw [hjc] at h; exact absurd h (by simp)
    | none =>
      rw [hjc] at h
      simp only [Except.ok.injEq, Prod.mk.injEq] at h
      obtain ⟨h1, h2⟩ := h
      subst h2
      exact ⟨ha2, rfl, rfl, h1.symm⟩

theorem leave_group_ok {g g' : Group} {u : String} (h : leave_group g u = .ok g') :
    g.is_active = true ∧ g.olusturan_id ≠ u ∧
    ∃ m rest, remove_first g.uyeler u = some (m, rest) ∧
      g' = { g with
        uyeler := rest
        uye_sayisi := if m.durum = "aktif" then max 1 (g.uye_sayisi - 1) else g.uye_sayisi } := by
  unfold leave_group at h
  by_cases ha : g.is_active = false
  · rw [if_pos ha] at h; exact absurd h (by simp)
  · rw [if_neg ha] at h
    have ha2 : g.is_active = true := by revert ha; cases g.is_active <;> simp
    by_cases hcre : g.olusturan_id = u
    · rw [if_pos hcre] at h; exact absurd h (by simp)
    · rw [if_neg hcre] at h
      cases hrm : remove_first g.uyeler u with
      | none => rw [hrm] at h; exact absurd h (by simp)
      | some pr =>
        obtain ⟨m, rest⟩ := pr
        rw [hrm] at h
        simp only at h
        simp only [Except.ok.injEq] at h
        exact ⟨ha2, hcre, m, rest, rfl, h.symm⟩

theorem approve_membership_ok {g g' : Group} {actor target : String} {acc : Bool}
    (h : approve_membership g actor target acc = .ok g') :
    g.is_active = true ∧ approve_perm g actor = true ∧
    ∃ m, find_member g.uyeler target = some m ∧ m.durum = "beklemede" ∧
      ((acc = true ∧ g' = { g with
          uyeler := set_durum_first g.uyeler target "aktif"
          uye_sayisi := g.uye_sayisi + 1 }) ∨
       (acc = false ∧ g' = { g with
          uyeler := g.uyeler.filter (fun uye => uye.kullanici_id ≠ target) })) := by
  unfold approve_membership at h
  by_cases ha : g.is_active = false
  · rw [if_pos ha] at h; exact absurd h (by simp)
  · rw [if_neg ha] at h
    have ha2 : g.is_active = true := by revert ha; cases g.is_active <;> simp
    by_cases hperm : approve_perm g actor = false
    · rw [if_pos hperm] at h; exact absurd h (by simp)
    · rw [if_neg hperm] at h
      have hperm2 : approve_perm g actor = true := by
        revert hperm; cases approve_perm g actor <;> simp
      cases hfm : find_member g.uyeler target with
      | none => rw [hfm] at h; exact absurd h (by simp)
      | some m =>
        rw [hfm] at h
        simp only at h
        by_cases hpend : m.durum ≠ "beklemede"
        · rw [if_pos hpend] at h; exact absurd h (by simp)
        · rw [if_neg hpend] at h
          have hpend2 : m.durum = "beklemede" := by
            revert hpend; by_cases hq : m.durum = "beklemede" <;> simp [hq]
          cases acc with
          | true =>
            rw [if_pos rfl] at h
            simp only [Except.ok.injEq] at h
            exact ⟨ha2, hperm2, m, rfl, hpend2, Or.inl ⟨rfl, h.symm⟩⟩
          | false =>
            rw [if_neg (by simp)] at h
            simp only [Except.ok.injEq] at h
            exact ⟨ha2, hperm2, m, rfl, hpend2, Or.inr ⟨rfl, h.symm⟩⟩

theorem update_member_role_ok {g g' : Group} {actor target r : String}
    (h : update_member_role g actor target r = .ok g') :
    (r = "uye" ∨ r = "moderator" ∨ r = "yonetici") ∧ g.is_active = true ∧
    role_update_perm g actor = true ∧
    ∃ m, find_member g.uyeler target = some m ∧ m.durum = "aktif" ∧
      target ≠ g.olusturan_id ∧
      g' = { g with uyeler := set_rol_first g.uyeler target r } := by
  unfold update_member_role at h
  by_cases hr : ¬ (r = "uye" ∨ r = "moderator" ∨ r = "yonetici")
  · rw [if_pos hr] at h; exact absurd h (by simp)
  · rw [if_neg hr] at h
    have hr2 := not_not.mp hr
    by_cases ha : g.is_active = false
    · rw [if_pos ha] at h; exact absurd h (by simp)
    · rw [if_neg ha] at h
      have ha2 : g.is_active = true := by revert ha; cases g.is_active <;> simp
      by_cases hperm : role_update_perm g actor = false
      · rw [if_pos hperm] at h; exact absurd h (by simp)
      · rw [if_neg hperm] at h
        have hperm2 : role_update_perm g actor = true := by
          revert hperm; cases role_update_perm g actor <;> simp
        cases hfm : find_member g.uyeler target with
        | none => rw [hfm] at h; exact absurd h (by simp)
        | some m =>
          rw [hfm] at h
          simp only at h
          by_cases hakt : m.durum ≠ "aktif"
          · rw [if_pos hakt] at h; exact absurd h (by simp)
          · rw [if_neg hakt] at h
            have hakt2 : m.durum = "aktif" := by
              revert hakt; by_cases hq : m.durum = "aktif" <;> simp [hq]
            by_cases hcre : target = g.olusturan_id
            · rw [if_pos hcre] at h; exact absurd h (by simp)
            · rw [if_neg hcre] at h
              simp only [Except.ok.injEq] at h
              exact ⟨hr2, ha2, hperm2, m, rfl, hakt2, hcre, h.symm⟩

/-! ### Preservation of the count invariant, one transition at a time -/

theorem activeCount_eq_aCountL (g : Group) : activeCount g = aCountL g.uyeler := rfl

theorem countInv_join {g g' : Group} {u d : String} {now : Nat}
    (h : join_group g u now = .ok (g', d)) (hinv : countInv g) : countInv g' := by
  obtain ⟨-, -, hd, hg⟩ := join_group_ok h
  subst hg
  unfold countInv at hinv ⊢
  rw [activeCount_eq_aCountL] at hinv ⊢
  show (if d = "aktif" then g.uye_sayisi + 1 else g.uye_sayisi) =
    ((aCountL (g.uyeler ++
      [{ kullanici_id := u, rol := "uye", katilma_tarihi := now, durum := d }]) : Nat) : Int)
  rw [aCountL_append, aCountL_cons]
  by_cases hda : d = "aktif"
  · rw [if_pos hda]
    simp only [hda, if_pos rfl]
    rw [hinv]
    push_cast
    ring_nf
    simp [aCountL]
  · rw [if_neg hda]
    simp only [if_neg hda]
    rw [hinv]
    push_cast
    simp [aCountL]

theorem countInv_leave {g g' : Group} {u : String}
    (h : leave_group g u = .ok g') (hinv : countInv g) (hcre : creatorInv g) :
    countInv g' := by
  obtain ⟨-, hneq, m, rest, hrm, hg⟩ := leave_group_ok h
  obtain ⟨pre, post, hl, hrest, hmu, hpreNe⟩ := remove_first_eq_some hrm
  subst hg
  subst hrest
  unfold countInv at hinv ⊢
  rw [activeCount_eq_aCountL] at hinv ⊢
  rw [hl] at hinv
  rw [aCountL_append, aCountL_cons] at hinv
  show (if m.durum = "aktif" then max 1 (g.uye_sayisi - 1) else g.uye_sayisi) =
    ((aCountL (pre ++ post) : Nat) : Int)
  rw [aCountL_append]
  by_cases hda : m.durum = "aktif"
  · rw [if_pos hda]
    simp [hda] at hinv
    obtain ⟨c, hcmem, hcid, hcrol, hcdur⟩ := creatorInv_exists hcre
    have hcm : c ≠ m := fun he => hneq (by rw [← hcid, he, hmu])
    have hcmem2 : c ∈ pre ++ post := by
      rw [hl] at hcmem
      rcases List.mem_append.mp hcmem with h1 | h1
      · exact List.mem_append.mpr (Or.inl h1)
      · rcases List.mem_cons.mp h1 with h1 | h1
        · exact absurd h1 hcm
        · exact List.mem_append.mpr (Or.inr h1)
    have h1le : 1 ≤ aCountL (pre ++ post) := by
      have hcf : c ∈ (pre ++ post).filter (fun x => x.durum = "aktif") :=
        List.mem_filter.mpr ⟨hcmem2, by simp [hcdur]⟩
      have := List.length_pos_of_mem hcf
      unfold aCountL
      omega
    rw [aCountL_append] at h1le
    rw [max_eq_right (by omega)]
    omega
  · rw [if_neg hda]
    simp [hda] at hinv
    omega

theorem countInv_approve {g g' : Group} {actor target : String} {acc : Bool}
    (h : approve_membership g actor target acc = .ok g') (hinv : countInv g)
    (huniq : uniqueIds g) : countInv g' := by
  obtain ⟨-, -, m, hfm, hpend, hcase⟩ := approve_membership_ok h
  obtain ⟨pre, post, hl, hmu, hpreNe⟩ := find_member_eq_some hfm
  have hmna : m.durum ≠ "aktif" := by rw [hpend]; decide
  have hpostNe : ∀ x ∈ post, x.kullanici_id ≠ target := by
    unfold uniqueIds at huniq
    rw [hl] at huniq
    exact (nodup_split huniq hmu).2
  unfold countInv at hinv ⊢
  rw [activeCount_eq_aCountL] at hinv ⊢
  rw [hl, aCountL_append, aCountL_cons, if_neg hmna] at hinv
  rcases hcase with ⟨-, hg⟩ | ⟨-, hg⟩
  · subst hg
    show g.uye_sayisi + 1 = ((aCountL (set_durum_first g.uyeler target "aktif") : Nat) : Int)
    rw [hl, set_durum_first_append hpreNe hmu, aCountL_append, aCountL_cons]
    have hcons : (({ m with durum := "aktif" } : GroupMember).durum = "aktif") = True := by simp
    simp only [hcons, if_true]
    omega
  · subst hg
    show g.uye_sayisi =
      ((aCountL (g.uyeler.filter (fun uye => uye.kullanici_id ≠ target)) : Nat) : Int)
    have hfe : g.uyeler.filter (fun uye => uye.kullanici_id ≠ target) = pre ++ post := by
      rw [hl, List.filter_append, List.filter_cons]
      have hm : ¬ (m.kullanici_id ≠ target) := by simp [hmu]
      rw [if_neg (by simpa using hm)]
      rw [List.filter_eq_self.mpr (fun x hx => by simpa using hpreNe x hx),
        List.filter_eq_self.mpr (fun x hx => by simpa using hpostNe x hx)]
    rw [hfe, aCountL_append]
    omega

theorem countInv_setRole {g g' : Group} {actor target r : String}
    (h : update_member_role g actor target r = .ok g') (hinv : countInv g) :
    countInv g' := by
  obtain ⟨-, -, -, m, hfm, hakt, hcre, hg⟩ := update_member_role_ok h
  subst hg
  unfold countInv at hinv ⊢
  rw [activeCount_eq_aCountL] at hinv ⊢
  show g.uye_sayisi = ((aCountL (set_rol_first g.uyeler target r) : Nat) : Int)
  rw [aCountL_set_rol]
  exact hinv

theorem countInv_add {g : Group} {uid rol durum : String} {now : Nat}
    (hinv : countInv g)
    (hcond : ∀ m ∈ g.uyeler, m.kullanici_id = uid → (m.durum = "aktif" ↔ durum = "aktif")) :
    countInv (add_member g uid rol durum now) := by
  unfold add_member
  by_cases hany : g.uyeler.any (fun uye => uye.kullanici_id = uid)
  · rw [if_pos hany]
    obtain ⟨pre, m, post, hl, hm, hpreNe⟩ :=
      exists_first_split (fun uye : GroupMember => uye.kullanici_id = uid) hany
    have hmu : m.kullanici_id = uid := by simpa using hm
    have hpreNe2 : ∀ x ∈ pre, x.kullanici_id ≠ uid := by
      intro x hx
      have := hpreNe x hx
      simpa using this
    unfold countInv at hinv ⊢
    rw [activeCount_eq_aCountL] at hinv ⊢
    show g.uye_sayisi = ((aCountL (set_durum_first (set_rol_first g.uyeler uid rol)
      uid durum) : Nat) : Int)
    rw [hl, set_rol_first_append hpreNe2 hmu]
    have hmu2 : ({ m with rol := rol } : GroupMember).kullanici_id = uid := hmu
    rw [set_durum_first_append hpreNe2 hmu2]
    rw [hl, aCountL_append, aCountL_cons] at hinv
    rw [aCountL_append, aCountL_cons]
    have hiff := hcond m (by rw [hl]; exact List.mem_append.mpr (Or.inr (List.mem_cons_self _ _))) hmu
    by_cases hda : durum = "aktif"
    · have hma : m.durum = "aktif" := hiff.mpr hda
      simp only [hda, hma, if_pos rfl] at hinv ⊢
      exact hinv
    · have hma : m.durum ≠ "aktif" := fun hq => hda (hiff.mp hq)
      simp only [if_neg hda, if_neg hma] at hinv ⊢
      exact hinv
  · rw [if_neg hany]
    unfold countInv at hinv ⊢
    rw [activeCount_eq_aCountL] at hinv ⊢
    show (if durum = "aktif" then g.uye_sayisi + 1 else g.uye_sayisi) =
      ((aCountL (g.uyeler ++
        [{ kullanici_id := uid, rol := rol, katilma_tarihi := now, durum := durum }])
        : Nat) : Int)
    rw [aCountL_append, aCountL_cons]
    by_cases hda : durum = "aktif"
    · simp only [if_pos hda, hda, if_pos rfl]
      rw [hinv]
      push_cast
      ring_nf
      simp [aCountL]
    · simp only [if_neg hda]
      rw [hinv]
      push_cast
      simp [aCountL]

/-! ### Preservation of the creator invariant, one transition at a time -/

theorem filter_ne_filter_id (l : List GroupMember) {t c : String} (h : t ≠ c) :
    (l.filter (fun x => x.kullanici_id ≠ t)).filter (fun x => x.kullanici_id = c) =
      l.filter (fun x => x.kullanici_id = c) := by
  induction l with
  | nil => rfl
  | cons uye rest ih =>
    rw [List.filter_cons]
    by_cases hq : uye.kullanici_id = t
    · rw [if_neg (by simp [hq])]
      rw [ih]
      have hq2 : ¬ (uye.kullanici_id = c) := by rw [hq]; exact h
      rw [List.filter_cons, if_neg (by simp [hq2])]
    · rw [if_pos (by simp [hq])]
      rw [List.filter_cons, ih, List.filter_cons]

theorem creatorInv_create (user_id grup_adi : String) (aciklama : Option String)
    (gizlilik : String) (kategoriler : List String) (now : Nat) :
    creatorInv (create_group user_id grup_adi aciklama gizlilik kategoriler now) := by
  unfold creatorInv create_group
  simp

theorem creatorInv_join {g g' : Group} {u d : String} {now : Nat}
    (h : join_group g u now = .ok (g', d)) (hcre : creatorInv g) : creatorInv g' := by
  obtain ⟨-, hjc, -, hg⟩ := join_group_ok h
  have hne : u ≠ g.olusturan_id := by
    intro he
    obtain ⟨c, hcmem, hcid, hcrol, hcdur⟩ := creatorInv_exists hcre
    have := join_check_none_durum hjc c hcmem (by rw [hcid, he])
    exact this.1 hcdur
  subst hg
  unfold creatorInv at hcre ⊢
  dsimp only
  rw [List.filter_append]
  have hnil : ([({ kullanici_id := u, rol := "uye", katilma_tarihi := now, durum := d } : GroupMember)].filter (fun uye => uye.kullanici_id = g.olusturan_id)) = [] := by
    simp [hne]
  rw [hnil, List.append_nil]
  exact hcre

theorem creatorInv_leave {g g' : Group} {u : String}
    (h : leave_group g u = .ok g') (hcre : creatorInv g) : creatorInv g' := by
  obtain ⟨-, hneq, m, rest, hrm, hg⟩ := leave_group_ok h
  obtain ⟨pre, post, hl, hrest, hmu, hpreNe⟩ := remove_first_eq_some hrm
  subst hg
  subst hrest
  unfold creatorInv at hcre ⊢
  dsimp only
  rw [hl] at hcre
  rw [List.filter_append, List.filter_cons] at hcre
  have hm : ¬ (m.kullanici_id = g.olusturan_id) := by
    rw [hmu]; exact fun he => hneq he.symm
  rw [if_neg (by simpa using hm)] at hcre
  rw [List.filter_append]
  exact hcre

theorem creatorInv_approve {g g' : Group} {actor target : String} {acc : Bool}
    (h : approve_membership g actor target acc = .ok g') (hcre : creatorInv g) :
    creatorInv g' := by
  obtain ⟨-, -, m, hfm, hpend, hcase⟩ := approve_membership_ok h
  obtain ⟨pre, post, hl, hmu, hpreNe⟩ := find_member_eq_some hfm
  have hmmem : m ∈ g.uyeler := by
    rw [hl]; exact List.mem_append.mpr (Or.inr (List.mem_cons_self _ _))
  have hne : target ≠ g.olusturan_id := by
    intro he
    have hmf : m ∈ g.uyeler.filter (fun uye => uye.kullanici_id = g.olusturan_id) :=
      List.mem_filter.mpr ⟨hmmem, by simp [hmu, he]⟩
    unfold creatorInv at hcre
    rcases hf : g.uyeler.filter (fun uye => uye.kullanici_id = g.olusturan_id)
      with _ | ⟨c, tail⟩
    · rw [hf] at hmf; exact absurd hmf (List.not_mem_nil m)
    · cases tail with
      | cons x xs =>
        rw [hf] at hcre
        exact absurd hcre (by simp)
      | nil =>
        rw [hf] at hcre hmf
        have hmc : m = c := by simpa using hmf
        simp only [List.map_cons, List.map_nil, List.cons.injEq, and_true,
          Prod.mk.injEq] at hcre
        rw [hmc, hcre.2] at hpend
        exact absurd hpend (by decide)
  rcases hcase with ⟨-, hg⟩ | ⟨-, hg⟩
  · subst hg
    unfold creatorInv at hcre ⊢
    dsimp only
    rw [filter_id_set_durum g.uyeler g.olusturan_id "aktif" hne]
    exact hcre
  · subst hg
    unfold creatorInv at hcre ⊢
    dsimp only
    rw [filter_ne_filter_id g.uyeler hne]
    exact hcre

theorem creatorInv_setRole {g g' : Group} {actor target r : String}
    (h : update_member_role g actor target r = .ok g') (hcre : creatorInv g) :
    creatorInv g' := by
  obtain ⟨-, -, -, m, hfm, hakt, hne, hg⟩ := update_member_role_ok h
  subst hg
  unfold creatorInv at hcre ⊢
  dsimp only
  rw [filter_id_set_rol g.uyeler g.olusturan_id r hne]
  exact hcre

theorem creatorInv_add {g : Group} {uid rol durum : String} {now : Nat}
    (hcre : creatorInv g)
    (hcond : uid ≠ g.olusturan_id ∨ (rol = "yonetici" ∧ durum = "aktif")) :
    creatorInv (add_member g uid rol durum now) := by
  unfold add_member
  by_cases hany : g.uyeler.any (fun uye => uye.kullanici_id = uid)
  · rw [if_pos hany]
    by_cases huc : uid = g.olusturan_id
    · have hrd : rol = "yonetici" ∧ durum = "aktif" := by
        rcases hcond with hne | hrd
        · exact absurd huc hne
        · exact hrd
      obtain ⟨hrol, hdur⟩ := hrd
      subst hrol
      subst hdur
      subst huc
      unfold creatorInv at hcre
      rcases hf : g.uyeler.filter (fun uye => uye.kullanici_id = g.olusturan_id)
        with _ | ⟨c, tail⟩
      · rw [hf] at hcre; exact absurd hcre (by simp)
      · cases tail with
        | cons x xs =>
          rw [hf] at hcre
          exact absurd hcre (by simp)
        | nil =>
          obtain ⟨pre, post, hl, hpreF, hpostF, hcP⟩ := filter_singleton_split hf
          have hcid : c.kullanici_id = g.olusturan_id := by simpa using hcP
          have hpre2 : ∀ x ∈ pre, x.kullanici_id ≠ g.olusturan_id := by
            intro x hx
            have := hpreF x hx
            simpa using this
          unfold creatorInv
          dsimp only
          rw [hl, set_rol_first_append hpre2 hcid]
          have hcid3 : ({ c with rol := "yonetici" } : GroupMember).kullanici_id =
            g.olusturan_id := hcid
          rw [set_durum_first_append hpre2 hcid3]
          rw [List.filter_append, List.filter_cons]
          rw [List.filter_eq_nil.mpr (fun x hx => by simpa using hpreF x hx)]
          rw [List.filter_eq_nil.mpr (fun x hx => by simpa using hpostF x hx)]
          rw [if_pos (by simpa using hcid)]
          simp
    · unfold creatorInv at hcre ⊢
      dsimp only
      rw [filter_id_set_durum _ g.olusturan_id durum huc,
        filter_id_set_rol g.uyeler g.olusturan_id rol huc]
      exact hcre
  · rw [if_neg hany]
    have hne : uid ≠ g.olusturan_id := by
      rcases hcond with hne | ⟨hrol, hdur⟩
      · exact hne
      · intro he
        obtain ⟨c, hcmem, hcid, -, -⟩ := creatorInv_exists hcre
        exact hany (List.any_eq_true.mpr ⟨c, hcmem, by simp [hcid, he]⟩)
    unfold creatorInv at hcre ⊢
    dsimp only
    rw [List.filter_append]
    have hnil : ([({ kullanici_id := uid, rol := rol, katilma_tarihi := now, durum := durum } : GroupMember)].filter (fun uye => uye.kullanici_id = g.olusturan_id)) = [] := by
      simp [hne]
    rw [hnil, List.append_nil]
    exact hcre

/-! ### Dispatch over the transition alphabet -/

theorem countInv_step {op : Op} {g g' : Group} (happ : applyOp op g = some g')
    (hinv : countInv g) (hcre : creatorInv g) (huniq : uniqueIds g)
    (hadd : ∀ uid rol durum now, op = Op.addMemberOp uid rol durum now →
      ∀ m ∈ g.uyeler, m.kullanici_id = uid → (m.durum = "aktif" ↔ durum = "aktif")) :
    countInv g' := by
  cases op with
  | joinOp uid now =>
    unfold applyOp at happ
    simp only at happ
    cases hj : join_group g uid now with
    | error e => rw [hj] at happ; exact absurd happ (by simp)
    | ok pr =>
      obtain ⟨g2, d⟩ := pr
      rw [hj] at happ
      simp only [Option.some.injEq] at happ
      subst happ
      exact countInv_join hj hinv
  | leaveOp uid =>
    unfold applyOp at happ
    simp only at happ
    cases hj : leave_group g uid with
    | error e => rw [hj] at happ; exact absurd happ (by simp)
    | ok g2 =>
      rw [hj] at happ
      simp only [Option.some.injEq] at happ
      subst happ
      exact countInv_leave hj hinv hcre
  | approveOp actor uid acc =>
    unfold applyOp at happ
    simp only at happ
    cases hj : approve_membership g actor uid acc with
    | error e => rw [hj] at happ; exact absurd happ (by simp)
    | ok g2 =>
      rw [hj] at happ
      simp only [Option.some.injEq] at happ
      subst happ
      exact countInv_approve hj hinv huniq
  | setRoleOp actor uid newRole =>
    unfold applyOp at happ
    simp only at happ
    cases hj : update_member_role g actor uid newRole with
    | error e => rw [hj] at happ; exact absurd happ (by simp)
    | ok g2 =>
      rw [hj] at happ
      simp only [Option.some.injEq] at happ
      subst happ
      exact countInv_setRole hj hinv
  | addMemberOp uid rol durum now =>
    unfold applyOp at happ
    simp only at happ
    simp only [Option.some.injEq] at happ
    subst happ
    exact countInv_add hinv (hadd uid rol durum now rfl)

theorem creatorInv_step {op : Op} {g g' : Group} (happ : applyOp op g = some g')
    (hok : addKeepsCreator op g) (hcre : creatorInv g) : creatorInv g' := by
  cases op with
  | joinOp uid now =>
    unfold applyOp at happ
    simp only at happ
    cases hj : join_group g uid now with
    | error e => rw [hj] at happ; exact absurd happ (by simp)
    | ok pr =>
      obtain ⟨g2, d⟩ := pr
      rw [hj] at happ
      simp only [Option.some.injEq] at happ
      subst happ
      exact creatorInv_join hj hcre
  | leaveOp uid =>
    unfold applyOp at happ
    simp only at happ
    cases hj : leave_group g uid with
    | error e => rw [hj] at happ; exact absurd happ (by simp)
    | ok g2 =>
      rw [hj] at happ
      simp only [Option.some.injEq] at happ
      subst happ
      exact creatorInv_leave hj hcre
  | approveOp actor uid acc =>
    unfold applyOp at happ
    simp only at happ
    cases hj : approve_membership g actor uid acc with
    | error e => rw [hj] at happ; exact absurd happ (by simp)
    | ok g2 =>
      rw [hj] at happ
      simp only [Option.some.injEq] at happ
      subst happ
      exact creatorInv_approve hj hcre
  | setRoleOp actor uid newRole =>
    unfold applyOp at happ
    simp only at happ
    cases hj : update_member_role g actor uid newRole with
    | error e => rw [hj] at happ; exact absurd happ (by simp)
    | ok g2 =>
      rw [hj] at happ
      simp only [Option.some.injEq] at happ
      subst happ
      exact creatorInv_setRole hj hcre
  | addMemberOp uid rol durum now =>
    unfold applyOp at happ
    simp only at happ
    simp only [Option.some.injEq] at happ
    subst happ
    exact creatorInv_add hcre (hok uid rol durum now rfl)

/-! ### Claim C1 -/

/-- Claim C1, counterexample: the claim says the `add_member` overwrite path
adjusts `uye_sayisi` whenever the overwrite changes whether the member is
counted as active.  It does not: overwriting the single active member of
`gOpen` to status `beklemede` is a membership transition that leaves
`uye_sayisi` at 1 while the number of active entries drops to 0, so the
count invariant does not survive the step even though it held before. -/
theorem C1_add_member_overwrite_breaks_count :
    countInv gOpen ∧
    applyOp (Op.addMemberOp "a" "uye" "beklemede" 1) gOpen =
      some (add_member gOpen "a" "uye" "beklemede" 1) ∧
    ¬ countInv (add_member gOpen "a" "uye" "beklemede" 1) :=
  ⟨by decide, rfl, by decide⟩

/-- Claim C1 (amended): for a group satisfying the documented invariants
(count = number of active entries, unique member ids, creator present as an
active admin), every join/leave/approve/setRole transition preserves
`uye_sayisi = |{m : m.durum = aktif}|`, and `add_member` preserves it
provided its overwrite path does not change whether the written member
counts as active; the original claim fails because that overwrite path
never adjusts the count. -/
theorem C1_member_count_invariant (op : Op) (g g' : Group)
    (happly : applyOp op g = some g')
    (hinv : countInv g) (hcre : creatorInv g) (huniq : uniqueIds g)
    (hadd : ∀ uid rol durum now, op = Op.addMemberOp uid rol durum now →
      ∀ m ∈ g.uyeler, m.kullanici_id = uid → (m.durum = "aktif" ↔ durum = "aktif")) :
    countInv g' :=
  countInv_step happly hinv hcre huniq hadd

/-- Witness for C1 (amended): a concrete join of user `b` into `gOpen`
steps to `gTwo` and keeps the count invariant. -/
theorem C1_member_count_invariant_witness :
    applyOp (Op.joinOp "b" 1) gOpen = some gTwo ∧ countInv gTwo :=
  ⟨by decide,
   C1_member_count_invariant (Op.joinOp "b" 1) gOpen gTwo (by decide) (by decide)
     (by decide) (by decide)
     (fun uid rol durum now hop => Op.noConfusion hop)⟩

/-! ### Claim C2 -/

/-- Claim C2, counterexample: the claim says no membership operation can
change the creator role or status, but the `add_member` transition applied
to the creator id overwrites the creator entry in place: after it, the
creator of `gOpen` is no longer an active admin. -/
theorem C2_add_member_rewrites_creator :
    creatorInv gOpen ∧
    applyOp (Op.addMemberOp "a" "uye" "beklemede" 1) gOpen =
      some (add_member gOpen "a" "uye" "beklemede" 1) ∧
    ¬ creatorInv (add_member gOpen "a" "uye" "beklemede" 1) :=
  ⟨by decide, rfl, by decide⟩

/-- Claim C2 (amended): in every state reachable from `create_group` by
join/leave/approve/setRole transitions and by `add_member` calls that do
not rewrite the creator entry to something other than admin/active, the
creator is present in the member list exactly once, with role `yonetici`
and status `aktif`; the unrestricted claim fails only on the `add_member`
overwrite path aimed at the creator. -/
theorem C2_creator_always_active_admin (user_id grup_adi : String)
    (aciklama : Option String) (gizlilik : String) (kategoriler : List String)
    (now : Nat) (g : Group)
    (h : Reach addKeepsCreator
      (create_group user_id grup_adi aciklama gizlilik kategoriler now) g) :
    creatorInv g := by
  induction h with
  | refl => exact creatorInv_create user_id grup_adi aciklama gizlilik kategoriler now
  | step hreach hok happ ih => exact creatorInv_step happ hok ih

/-- Witness for C2 (amended): after creating `gOpen` and letting `b` join,
the creator `a` is still the unique active admin entry. -/
theorem C2_creator_always_active_admin_witness : creatorInv gTwo :=
  C2_creator_always_active_admin "a" "Takim" none "acik" [] 0 gTwo
    (@Reach.step addKeepsCreator gOpen gOpen gTwo (Op.joinOp "b" 1)
      (Reach.refl _) (fun uid rol durum now hop => Op.noConfusion hop) (by decide))

/-! ### Claim C3 -/

/-- Claim C3: joining an active group as a fresh user appends a plain-member
entry; closed visibility yields status `beklemede` and an unchanged count,
any other visibility yields status `aktif` and a count incremented by one;
a user already present (with one of the three known statuses) gets a
`ValidationError` and, the operation failing, the group is unchanged. -/
theorem C3_join_semantics (g : Group) (u : String) (now : Nat)
    (hact : g.is_active = true)
    (hdom : ∀ m ∈ g.uyeler,
      m.durum = "aktif" ∨ m.durum = "beklemede" ∨ m.durum = "engellendi") :
    ((∀ m ∈ g.uyeler, m.kullanici_id ≠ u) →
      (g.gizlilik = "kapali" →
        join_group g u now = .ok ({ g with
          uyeler := g.uyeler ++
            [{ kullanici_id := u, rol := "uye", katilma_tarihi := now,
               durum := "beklemede" }] }, "beklemede")) ∧
      (g.gizlilik ≠ "kapali" →
        join_group g u now = .ok ({ g with
          uyeler := g.uyeler ++
            [{ kullanici_id := u, rol := "uye", katilma_tarihi := now,
               durum := "aktif" }]
          uye_sayisi := g.uye_sayisi + 1 }, "aktif"))) ∧
    ((∃ m ∈ g.uyeler, m.kullanici_id = u) →
      ∃ msg, join_group g u now = .error (.validation msg)) := by
  constructor
  · intro hno
    have hjc := join_check_eq_none hno
    constructor
    · intro hkap
      unfold join_group
      rw [if_neg (by simp [hact]), hjc]
      simp [hkap]
    · intro hkap
      unfold join_group
      rw [if_neg (by simp [hact]), hjc]
      simp [hkap]
  · rintro ⟨m, hm, hid⟩
    cases hjc : join_check g.uyeler u with
    | none =>
      have := join_check_none_durum hjc m hm hid
      rcases hdom m hm with hq | hq | hq
      · exact absurd hq this.1
      · exact absurd hq this.2.1
      · exact absurd hq this.2.2
    | some e =>
      obtain ⟨msg, he⟩ := join_check_shape hjc
      refine ⟨msg, ?_⟩
      unfold join_group
      rw [if_neg (by simp [hact]), hjc, he]

/-- Witness for C3: `b` joining the closed group `gClosed` is recorded as
pending with the count untouched, and `b` joining `gTwo` again is rejected
with a validation error. -/
theorem C3_join_semantics_witness :
    join_group gClosed "b" 1 = .ok ({ gClosed with
      uyeler := gClosed.uyeler ++
        [{ kullanici_id := "b", rol := "uye", katilma_tarihi := 1,
           durum := "beklemede" }] }, "beklemede") ∧
    ∃ msg, join_group gTwo "b" 5 = .error (.validation msg) :=
  ⟨((C3_join_semantics gClosed "b" 1 (by decide) (by decide)).1 (by decide)).1 rfl,
   (C3_join_semantics gTwo "b" 5 (by decide) (by decide)).2
     ⟨{ kullanici_id := "b", rol := "uye", katilma_tarihi := 1, durum := "aktif" },
      by decide, rfl⟩⟩

/-! ### Claim C4 -/

/-- Claim C4: on an active group, with an authorized actor and a target
whose (unique) entry is pending, `approve` with accept=true rewrites exactly
that entry to status `aktif` and increments the count by one, while accept
=false removes exactly that entry and leaves the count unchanged; all other
entries are untouched in both cases. -/
theorem C4_approve_accept_reject (g : Group) (actor target : String)
    (pre post : List GroupMember) (m : GroupMember)
    (hact : g.is_active = true)
    (hperm : approve_perm g actor = true)
    (huniq : uniqueIds g)
    (hsplit : g.uyeler = pre ++ m :: post)
    (hm : m.kullanici_id = target) (hpend : m.durum = "beklemede") :
    approve_membership g actor target true = .ok { g with
      uyeler := pre ++ { m with durum := "aktif" } :: post
      uye_sayisi := g.uye_sayisi + 1 } ∧
    approve_membership g actor target false = .ok { g with
      uyeler := pre ++ post } := by
  have hnd : ((pre ++ m :: post).map GroupMember.kullanici_id).Nodup := by
    unfold uniqueIds at huniq
    rw [hsplit] at huniq
    exact huniq
  obtain ⟨hpreNe, hpostNe⟩ := nodup_split hnd hm
  have hfm : find_member g.uyeler target = some m := by
    rw [hsplit]; exact find_member_append hpreNe hm
  have hset : set_durum_first g.uyeler target "aktif" =
      pre ++ { m with durum := "aktif" } :: post := by
    rw [hsplit]; exact set_durum_first_append hpreNe hm
  have hfilter : g.uyeler.filter (fun uye => uye.kullanici_id ≠ target) = pre ++ post := by
    rw [hsplit, List.filter_append, List.filter_cons]
    rw [if_neg (by simp [hm])]
    rw [List.filter_eq_self.mpr (fun x hx => by simpa using hpreNe x hx),
      List.filter_eq_self.mpr (fun x hx => by simpa using hpostNe x hx)]
  constructor
  · unfold approve_membership
    rw [if_neg (by simp [hact]), if_neg (by simp [hperm]), hfm]
    simp only
    rw [if_neg (by simp [hpend]), if_pos (by trivial), hset]
  · unfold approve_membership
    rw [if_neg (by simp [hact]), if_neg (by simp [hperm]), hfm]
    simp only
    rw [if_neg (by simp [hpend]), if_neg (by simp), hfilter]

/-- Witness for C4: the creator of `gPend` approving and rejecting the
pending application of `b`. -/
theorem C4_approve_accept_reject_witness :
    approve_membership gPend "a" "b" true = .ok { gPend with
      uyeler := [{ kullanici_id := "a", rol := "yonetici", katilma_tarihi := 0,
                   durum := "aktif" },
                 { kullanici_id := "b", rol := "uye", katilma_tarihi := 1,
                   durum := "aktif" }]
      uye_sayisi := 2 } ∧
    approve_membership gPend "a" "b" false = .ok { gPend with
      uyeler := [{ kullanici_id := "a", rol := "yonetici", katilma_tarihi := 0,
                   durum := "aktif" }] } :=
  C4_approve_accept_reject gPend "a" "b"
    [{ kullanici_id := "a", rol := "yonetici", katilma_tarihi := 0, durum := "aktif" }]
    [] { kullanici_id := "b", rol := "uye", katilma_tarihi := 1, durum := "beklemede" }
    (by decide) (by decide) (by decide) rfl rfl rfl

/-! ### Claim C5 -/

/-- Claim C5: on an active group, `leave` by the creator is rejected with a
forbidden error; `leave` by a user not in the member list is rejected with a
validation error; `leave` by a member removes exactly that entry and, if the
entry was active, decrements the count by exactly one (with a floor of 1,
so the count never drops below 1), leaving it unchanged otherwise. -/
theorem C5_leave_semantics (g : Group) (u : String) (hact : g.is_active = true) :
    (g.olusturan_id = u →
      leave_group g u = .error (.forbidden "Grup kurucusu gruptan ayrilamaz")) ∧
    (g.olusturan_id ≠ u → (∀ m ∈ g.uyeler, m.kullanici_id ≠ u) →
      leave_group g u = .error (.validation "Bu grubun uyesi degilsiniz")) ∧
    (∀ pre post m, g.olusturan_id ≠ u → g.uyeler = pre ++ m :: post →
      (∀ x ∈ pre, x.kullanici_id ≠ u) → m.kullanici_id = u →
      ∃ g', leave_group g u = .ok g' ∧ g'.uyeler = pre ++ post ∧
        (m.durum = "aktif" →
          g'.uye_sayisi = max 1 (g.uye_sayisi - 1) ∧ 1 ≤ g'.uye_sayisi) ∧
        (m.durum = "aktif" → 2 ≤ g.uye_sayisi → g'.uye_sayisi = g.uye_sayisi - 1) ∧
        (m.durum ≠ "aktif" → g'.uye_sayisi = g.uye_sayisi)) := by
  refine ⟨?_, ?_, ?_⟩
  · intro hcre
    unfold leave_group
    rw [if_neg (by simp [hact]), if_pos hcre]
  · intro hcre hno
    unfold leave_group
    rw [if_neg (by simp [hact]), if_neg hcre, remove_first_eq_none hno]
  · intro pre post m hcre hsplit hpreNe hmu
    have hrm : remove_first g.uyeler u = some (m, pre ++ post) := by
      rw [hsplit]; exact remove_first_append hpreNe hmu
    refine ⟨{ g with
      uyeler := pre ++ post
      uye_sayisi := if m.durum = "aktif" then max 1 (g.uye_sayisi - 1)
        else g.uye_sayisi }, ?_, rfl, ?_, ?_, ?_⟩
    · unfold leave_group
      rw [if_neg (by simp [hact]), if_neg hcre, hrm]
    · intro hda
      rw [if_pos hda]
      exact ⟨rfl, by dsimp only; omega⟩
    · intro hda hge
      rw [if_pos hda]
      dsimp only
      rw [max_eq_right (by omega)]
    · intro hda
      rw [if_neg hda]

/-- Witness for C5: the creator of `gTwo` cannot leave; a stranger cannot
leave; `b` leaving `gTwo` removes the entry and brings the count back to 1. -/
theorem C5_leave_semantics_witness :
    leave_group gTwo "a" = .error (.forbidden "Grup kurucusu gruptan ayrilamaz") ∧
    leave_group gTwo "z" = .error (.validation "Bu grubun uyesi degilsiniz") ∧
    ∃ g', leave_group gTwo "b" = .ok g' ∧
      g'.uyeler = [{ kullanici_id := "a", rol := "yonetici", katilma_tarihi := 0, durum := "aktif" }] ++ [] ∧
      g'.uye_sayisi = 2 - 1 :=
  ⟨(C5_leave_semantics gTwo "a" (by decide)).1 rfl,
   (C5_leave_semantics gTwo "z" (by decide)).2.1 (by decide) (by decide),
   by
    obtain ⟨g', hok, huy, hcnt1, hcnt2, hcnt3⟩ :=
      (C5_leave_semantics gTwo "b" (by decide)).2.2
        [{ kullanici_id := "a", rol := "yonetici", katilma_tarihi := 0, durum := "aktif" }]
        [] { kullanici_id := "b", rol := "uye", katilma_tarihi := 1, durum := "aktif" }
        (by decide) rfl (by decide) rfl
    exact ⟨g', hok, huy, hcnt2 rfl (by decide)⟩⟩

/-! ### Claim C6 -/

/-- Claim C6: on an active group, with a valid role and an authorized actor,
`setRole` on a target absent from the member list fails with a not-found
error and no mutation; on a target whose first entry is not active it fails
with a validation error and no mutation; on an active non-creator target it
rewrites exactly that entry's role, leaving every other entry, the list
order and the member count unchanged. -/
theorem C6_set_role_frame (g : Group) (actor target r : String)
    (hact : g.is_active = true) (hperm : role_update_perm g actor = true)
    (hrole : r = "uye" ∨ r = "moderator" ∨ r = "yonetici") :
    ((∀ m ∈ g.uyeler, m.kullanici_id ≠ target) →
      update_member_role g actor target r =
        .error (.notFound "Kullanici bu grubun uyesi degil")) ∧
    (∀ pre post m, g.uyeler = pre ++ m :: post →
      (∀ x ∈ pre, x.kullanici_id ≠ target) → m.kullanici_id = target →
      (m.durum ≠ "aktif" →
        update_member_role g actor target r =
          .error (.validation "Sadece aktif uyelerin rolleri degistirilebilir")) ∧
      (m.durum = "aktif" → target ≠ g.olusturan_id →
        update_member_role g actor target r = .ok { g with
          uyeler := pre ++ { m with rol := r } :: post })) := by
  constructor
  · intro hno
    unfold update_member_role
    rw [if_neg (by simp [hrole]), if_neg (by simp [hact]), if_neg (by simp [hperm]),
      find_member_eq_none hno]
  · intro pre post m hsplit hpreNe hmu
    have hfm : find_member g.uyeler target = some m := by
      rw [hsplit]; exact find_member_append hpreNe hmu
    constructor
    · intro hna
      unfold update_member_role
      rw [if_neg (by simp [hrole]), if_neg (by simp [hact]), if_neg (by simp [hperm]),
        hfm]
      simp only
      rw [if_pos hna]
    · intro hda hncre
      unfold update_member_role
      rw [if_neg (by simp [hrole]), if_neg (by simp [hact]), if_neg (by simp [hperm]),
        hfm]
      simp only
      rw [if_neg (by simp [hda]), if_neg hncre]
      have hset : set_rol_first g.uyeler target r =
          pre ++ { m with rol := r } :: post := by
        rw [hsplit]; exact set_rol_first_append hpreNe hmu
      rw [hset]

/-- Witness for C6: promoting the active member `b` of `gTwo` to moderator
rewrites only that entry; targeting the absent user `z` fails. -/
theorem C6_set_role_frame_witness :
    update_member_role gTwo "a" "z" "moderator" =
      .error (.notFound "Kullanici bu grubun uyesi degil") ∧
    update_member_role gTwo "a" "b" "moderator" = .ok { gTwo with
      uyeler := [{ kullanici_id := "a", rol := "yonetici", katilma_tarihi := 0,
                   durum := "aktif" }] ++
        [{ kullanici_id := "b", rol := "moderator", katilma_tarihi := 1,
           durum := "aktif" }] ++ [] } :=
  ⟨(C6_set_role_frame gTwo "a" "z" "moderator" (by decide) (by decide)
      (Or.inr (Or.inl rfl))).1 (by decide),
   by
    have h := ((C6_set_role_frame gTwo "a" "b" "moderator" (by decide) (by decide)
      (Or.inr (Or.inl rfl))).2
      [{ kullanici_id := "a", rol := "yonetici", katilma_tarihi := 0, durum := "aktif" }]
      [] { kullanici_id := "b", rol := "uye", katilma_tarihi := 1, durum := "aktif" }
      rfl (by decide) rfl).2 rfl (by decide)
    simpa using h⟩

/-! ### Claim C7 -/

/-- Claim C7, counterexample: the claim says `approve` raises a validation
error whenever the target is not found in the member list; the code raises
a `NotFoundError` (404) instead, here for the absent target `z` of the
active group `gOpen` with the creator acting. -/
theorem C7_absent_target_gives_not_found :
    approve_membership gOpen "a" "z" true =
      .error (.notFound "Kullanici bu gruba basvurmamis") ∧
    isValidationErr (approve_membership gOpen "a" "z" true) = false :=
  ⟨rfl, rfl⟩

/-- Claim C7 (amended): on an active group with an authorized actor,
`approve` rejects an absent target with a not-found error (not a validation
error), rejects a target whose entry is not pending with a validation
error, and a second `approve` on a user just made active by a first
`approve` fails with that same validation error; the group is unchanged in
every rejecting case since the operation returns before mutating. -/
theorem C7_approve_error_paths (g : Group) (actor target : String) (acc : Bool)
    (hact : g.is_active = true) (hperm : approve_perm g actor = true) :
    ((∀ m ∈ g.uyeler, m.kullanici_id ≠ target) →
      approve_membership g actor target acc =
        .error (.notFound "Kullanici bu gruba basvurmamis")) ∧
    (∀ pre post m, g.uyeler = pre ++ m :: post →
      (∀ x ∈ pre, x.kullanici_id ≠ target) → m.kullanici_id = target →
      m.durum ≠ "beklemede" →
      approve_membership g actor target acc =
        .error (.validation "Bu kullanicinin onay bekleyen bir basvurusu yok")) ∧
    (∀ pre post m, g.uyeler = pre ++ m :: post →
      (∀ x ∈ pre, x.kullanici_id ≠ target) → m.kullanici_id = target →
      m.durum = "beklemede" →
      ∃ g1, approve_membership g actor target true = .ok g1 ∧
        approve_membership g1 actor target true =
          .error (.validation "Bu kullanicinin onay bekleyen bir basvurusu yok")) := by
  refine ⟨?_, ?_, ?_⟩
  · intro hno
    unfold approve_membership
    rw [if_neg (by simp [hact]), if_neg (by simp [hperm]), find_member_eq_none hno]
  · intro pre post m hsplit hpreNe hmu hnp
    have hfm : find_member g.uyeler target = some m := by
      rw [hsplit]; exact find_member_append hpreNe hmu
    unfold approve_membership
    rw [if_neg (by simp [hact]), if_neg (by simp [hperm]), hfm]
    simp only
    rw [if_pos hnp]
  · intro pre post m hsplit hpreNe hmu hpend
    have hfm : find_member g.uyeler target = some m := by
      rw [hsplit]; exact find_member_append hpreNe hmu
    have hset : set_durum_first g.uyeler target "aktif" =
        pre ++ { m with durum := "aktif" } :: post := by
      rw [hsplit]; exact set_durum_first_append hpreNe hmu
    refine ⟨{ g with
      uyeler := pre ++ { m with durum := "aktif" } :: post
      uye_sayisi := g.uye_sayisi + 1 }, ?_, ?_⟩
    · unfold approve_membership
      rw [if_neg (by simp [hact]), if_neg (by simp [hperm]), hfm]
      simp only
      rw [if_neg (by simp [hpend]), if_pos (by trivial), hset]
    · have hperm2 : approve_perm ({ g with
          uyeler := pre ++ { m with durum := "aktif" } :: post
          uye_sayisi := g.uye_sayisi + 1 } : Group) actor = true := by
        unfold approve_perm at hperm ⊢
        dsimp only
        rcases Bool.or_eq_true_iff.mp hperm with hq | hq
        · exact Bool.or_eq_true_iff.mpr (Or.inl hq)
        · refine Bool.or_eq_true_iff.mpr (Or.inr ?_)
          obtain ⟨e, hemem, hep⟩ := List.any_eq_true.mp hq
          have hne : e ≠ m := by
            intro he
            subst he
            simp only [Bool.and_eq_true] at hep
            have : e.durum = "aktif" := by simpa using hep.2
            rw [hpend] at this
            exact absurd this (by decide)
          have hemem2 : e ∈ pre ++ { m with durum := "aktif" } :: post := by
            rw [hsplit] at hemem
            rcases List.mem_append.mp hemem with h1 | h1
            · exact List.mem_append.mpr (Or.inl h1)
            · rcases List.mem_cons.mp h1 with h1 | h1
              · exact absurd h1 hne
              · exact List.mem_append.mpr (Or.inr (List.mem_cons_of_mem _ h1))
          exact List.any_eq_true.mpr ⟨e, hemem2, hep⟩
      have hfm2 : find_member (pre ++ { m with durum := "aktif" } :: post) target =
          some { m with durum := "aktif" } :=
        find_member_append hpreNe hmu
      unfold approve_membership
      rw [if_neg (by simp [hact]), if_neg (by simp [hperm2])]
      dsimp only
      rw [hfm2]
      simp only
      rw [if_pos (by simp)]

/-- Witness for C7 (amended): on `gPend`, the absent target `z` yields a
not-found error, the already-active target `a` yields a validation error,
and approving `b` twice fails the second time. -/
theorem C7_approve_error_paths_witness :
    approve_membership gPend "a" "z" true =
      .error (.notFound "Kullanici bu gruba basvurmamis") ∧
    approve_membership gPend "a" "a" false =
      .error (.validation "Bu kullanicinin onay bekleyen bir basvurusu yok") ∧
    ∃ g1, approve_membership gPend "a" "b" true = .ok g1 ∧
      approve_membership g1 "a" "b" true =
        .error (.validation "Bu kullanicinin onay bekleyen bir basvurusu yok") :=
  ⟨(C7_approve_error_paths gPend "a" "z" true (by decide) (by decide)).1 (by decide),
   (C7_approve_error_paths gPend "a" "a" false (by decide) (by decide)).2.1
     [] [{ kullanici_id := "b", rol := "uye", katilma_tarihi := 1, durum := "beklemede" }]
     { kullanici_id := "a", rol := "yonetici", katilma_tarihi := 0, durum := "aktif" }
     rfl (by decide) rfl (by decide),
   (C7_approve_error_paths gPend "a" "b" true (by decide) (by decide)).2.2
     [{ kullanici_id := "a", rol := "yonetici", katilma_tarihi := 0, durum := "aktif" }]
     [] { kullanici_id := "b", rol := "uye", katilma_tarihi := 1, durum := "beklemede" }
     rfl (by decide) rfl rfl⟩

/-! ### Poll lemmas -/

theorem remove_first_vote_eq_none {l : List PollVote} {u : String}
    (h : ∀ x ∈ l, x.kullanici_id ≠ u) : remove_first_vote l u = none := by
  induction l with
  | nil => rfl
  | cons oy rest ih =>
    have hne : oy.kullanici_id ≠ u := h oy (List.mem_cons_self _ _)
    have ih2 := ih (fun x hx => h x (List.mem_cons_of_mem _ hx))
    simp only [remove_first_vote, if_neg hne, List.append_eq, ih2]

theorem remove_first_vote_eq_some {l : List PollVote} {u : String} {v : PollVote}
    {rest : List PollVote} (h : remove_first_vote l u = some (v, rest)) :
    ∃ pre post, l = pre ++ v :: post ∧ rest = pre ++ post ∧ v.kullanici_id = u ∧
      ∀ x ∈ pre, x.kullanici_id ≠ u := by
  induction l generalizing rest with
  | nil => exact absurd h (by simp [remove_first_vote])
  | cons oy tail ih =>
    rw [remove_first_vote] at h
    by_cases hid : oy.kullanici_id = u
    · rw [if_pos hid] at h
      simp only [Option.some.injEq, Prod.mk.injEq] at h
      obtain ⟨h1, h2⟩ := h
      subst h1; subst h2
      exact ⟨[], tail, by simp, by simp, hid, by simp⟩
    · rw [if_neg hid] at h
      cases hrec : remove_first_vote tail u with
      | none => rw [hrec] at h; exact absurd h (by simp)
      | some pr =>
        obtain ⟨v0, rest0⟩ := pr
        rw [hrec] at h
        simp only [Option.some.injEq, Prod.mk.injEq] at h
        obtain ⟨h1, h2⟩ := h
        subst h1
        obtain ⟨pre, post, hl, hrest, hvu, hpre⟩ := ih hrec
        refine ⟨oy :: pre, post, by simp [hl], by simp [← h2, hrest], hvu, ?_⟩
        intro x hx
        rcases List.mem_cons.mp hx with hx | hx
        · exact hx ▸ hid
        · exact hpre x hx

theorem remove_first_vote_append {pre post : List PollVote} {u : String} {v : PollVote}
    (hpre : ∀ x ∈ pre, x.kullanici_id ≠ u) (hv : v.kullanici_id = u) :
    remove_first_vote (pre ++ v :: post) u = some (v, pre ++ post) := by
  induction pre with
  | nil => simp [remove_first_vote, hv]
  | cons oy rest ih =>
    have hne : oy.kullanici_id ≠ u := hpre oy (List.mem_cons_self _ _)
    have ih2 := ih (fun x hx => hpre x (List.mem_cons_of_mem _ hx))
    simp only [List.cons_append, remove_first_vote, if_neg hne, List.append_eq, ih2]

theorem map_id_inc_first (l : List PollOption) (s : String) :
    (inc_first l s).map PollOption.option_id = l.map PollOption.option_id := by
  induction l with
  | nil => rfl
  | cons o rest ih =>
    by_cases hq : o.option_id = s <;> simp [inc_first, hq, ih]

theorem map_id_dec_first (l : List PollOption) (s : String) :
    (dec_first l s).map PollOption.option_id = l.map PollOption.option_id := by
  induction l with
  | nil => rfl
  | cons o rest ih =>
    by_cases hq : o.option_id = s <;> simp [dec_first, hq, ih]

theorem inc_dec_cancel (l : List PollOption) (s : String) :
    inc_first (dec_first l s) s = l := by
  induction l with
  | nil => rfl
  | cons o rest ih =>
    by_cases hq : o.option_id = s
    · simp [dec_first, inc_first, hq]
      rw [← hq]
    · simp [dec_first, inc_first, hq, ih]

theorem mem_inc_first {l : List PollOption} {s : String} {o : PollOption}
    (hnd : (l.map PollOption.option_id).Nodup) (ho : o ∈ inc_first l s) :
    (o ∈ l ∧ o.option_id ≠ s) ∨
      (∃ o0 ∈ l, o0.option_id = s ∧ o = { o0 with oy_sayisi := o0.oy_sayisi + 1 }) := by
  induction l with
  | nil => exact absurd ho (by simp [inc_first])
  | cons a rest ih =>
    rw [List.map_cons, List.nodup_cons] at hnd
    by_cases hq : a.option_id = s
    · rw [inc_first, if_pos hq] at ho
      rcases List.mem_cons.mp ho with ho | ho
      · exact Or.inr ⟨a, List.mem_cons_self _ _, hq, ho⟩
      · refine Or.inl ⟨List.mem_cons_of_mem _ ho, ?_⟩
        intro he
        apply hnd.1
        rw [hq, ← he]
        exact List.mem_map_of_mem _ ho
    · rw [inc_first, if_neg hq] at ho
      rcases List.mem_cons.mp ho with ho | ho
      · exact Or.inl ⟨ho ▸ List.mem_cons_self _ _, ho ▸ hq⟩
      · rcases ih hnd.2 ho with ⟨h1, h2⟩ | ⟨o0, h1, h2, h3⟩
        · exact Or.inl ⟨List.mem_cons_of_mem _ h1, h2⟩
        · exact Or.inr ⟨o0, List.mem_cons_of_mem _ h1, h2, h3⟩

theorem mem_dec_first {l : List PollOption} {s : String} {o : PollOption}
    (hnd : (l.map PollOption.option_id).Nodup) (ho : o ∈ dec_first l s) :
    (o ∈ l ∧ o.option_id ≠ s) ∨
      (∃ o0 ∈ l, o0.option_id = s ∧ o = { o0 with oy_sayisi := o0.oy_sayisi - 1 }) := by
  induction l with
  | nil => exact absurd ho (by simp [dec_first])
  | cons a rest ih =>
    rw [List.map_cons, List.nodup_cons] at hnd
    by_cases hq : a.option_id = s
    · rw [dec_first, if_pos hq] at ho
      rcases List.mem_cons.mp ho with ho | ho
      · exact Or.inr ⟨a, List.mem_cons_self _ _, hq, ho⟩
      · refine Or.inl ⟨List.mem_cons_of_mem _ ho, ?_⟩
        intro he
        apply hnd.1
        rw [hq, ← he]
        exact List.mem_map_of_mem _ ho
    · rw [dec_first, if_neg hq] at ho
      rcases List.mem_cons.mp ho with ho | ho
      · exact Or.inl ⟨ho ▸ List.mem_cons_self _ _, ho ▸ hq⟩
      · rcases ih hnd.2 ho with ⟨h1, h2⟩ | ⟨o0, h1, h2, h3⟩
        · exact Or.inl ⟨List.mem_cons_of_mem _ h1, h2⟩
        · exact Or.inr ⟨o0, List.mem_cons_of_mem _ h1, h2, h3⟩

theorem uCountL_zero_iff {vs : List PollVote} {u : String} :
    uCountL vs u = 0 ↔ ∀ x ∈ vs, x.kullanici_id ≠ u := by
  unfold uCountL
  rw [List.length_eq_zero, List.filter_eq_nil]
  constructor
  · intro h x hx hxu
    exact h x hx (by simpa using hxu)
  · intro h x hx hxp
    exact h x hx (by simpa using hxp)

theorem remove_first_vote_none_inv {l : List PollVote} {u : String}
    (h : remove_first_vote l u = none) : ∀ x ∈ l, x.kullanici_id ≠ u := by
  induction l with
  | nil => intro x hx; exact absurd hx (List.not_mem_nil x)
  | cons oy rest ih =>
    intro x hx
    rw [remove_first_vote] at h
    by_cases hid : oy.kullanici_id = u
    · rw [if_pos hid] at h; exact absurd h (by simp)
    · rw [if_neg hid] at h
      rcases List.mem_cons.mp hx with hx | hx
      · exact hx ▸ hid
      · cases hrec : remove_first_vote rest u with
        | none => exact ih hrec x hx
        | some pr => rw [hrec] at h; exact absurd h (by simp)

theorem any_id_inc (l : List PollOption) (s t : String) :
    ((inc_first l s).any (fun o => o.option_id = t)) =
      (l.any (fun o => o.option_id = t)) := by
  induction l with
  | nil => rfl
  | cons o rest ih =>
    by_cases hq : o.option_id = s <;> simp [inc_first, hq, ih]

theorem any_id_dec (l : List PollOption) (s t : String) :
    ((dec_first l s).any (fun o => o.option_id = t)) =
      (l.any (fun o => o.option_id = t)) := by
  induction l with
  | nil => rfl
  | cons o rest ih =>
    by_cases hq : o.option_id = s <;> simp [dec_first, hq, ih]

theorem tally_after_inc {l : List PollOption} {vs vs2 : List PollVote} {s2 : String}
    (hnd : (l.map PollOption.option_id).Nodup)
    (ht : ∀ o ∈ l, o.oy_sayisi = (vCountL vs o.option_id : Int))
    (hcnt : ∀ t, (vCountL vs2 t : Int) =
      (vCountL vs t : Int) + (if t = s2 then 1 else 0)) :
    ∀ o ∈ inc_first l s2, o.oy_sayisi = (vCountL vs2 o.option_id : Int) := by
  intro o ho
  rcases mem_inc_first hnd ho with ⟨h1, h2⟩ | ⟨o0, h1, h2, h3⟩
  · have := ht o h1
    rw [hcnt o.option_id, if_neg h2]
    omega
  · have := ht o0 h1
    subst h3
    dsimp only
    rw [hcnt o0.option_id, if_pos h2]
    omega

theorem tally_after_dec_inc {l : List PollOption} {vs vs2 : List PollVote}
    {s1 s2 : String}
    (hnd : (l.map PollOption.option_id).Nodup)
    (ht : ∀ o ∈ l, o.oy_sayisi = (vCountL vs o.option_id : Int))
    (hcnt : ∀ t, (vCountL vs2 t : Int) =
      (vCountL vs t : Int) - (if t = s1 then 1 else 0) + (if t = s2 then 1 else 0)) :
    ∀ o ∈ inc_first (dec_first l s1) s2,
      o.oy_sayisi = (vCountL vs2 o.option_id : Int) := by
  intro o ho
  have hnd2 : ((dec_first l s1).map PollOption.option_id).Nodup := by
    rw [map_id_dec_first]; exact hnd
  rcases mem_inc_first hnd2 ho with ⟨h1, h2⟩ | ⟨o1, h1, h2, h3⟩
  · rcases mem_dec_first hnd h1 with ⟨g1, g2⟩ | ⟨o0, g1, g2, g3⟩
    · have := ht o g1
      rw [hcnt o.option_id, if_neg g2, if_neg h2]
      omega
    · have := ht o0 g1
      subst g3
      dsimp only at h2 ⊢
      rw [hcnt o0.option_id, if_pos g2, if_neg h2]
      omega
  · rcases mem_dec_first hnd h1 with ⟨g1, g2⟩ | ⟨o0, g1, g2, g3⟩
    · have := ht o1 g1
      subst h3
      dsimp only
      rw [hcnt o1.option_id, if_neg g2, if_pos h2]
      omega
    · have := ht o0 g1
      subst h3
      subst g3
      dsimp only at h2 ⊢
      rw [hcnt o0.option_id, if_pos g2, if_pos h2]
      omega

theorem vCountL_append (a b : List PollVote) (t : String) :
    vCountL (a ++ b) t = vCountL a t + vCountL b t := by
  simp [vCountL, List.filter_append]

theorem vCountL_cons (v : PollVote) (l : List PollVote) (t : String) :
    vCountL (v :: l) t = (if v.secenek_id = t then 1 else 0) + vCountL l t := by
  by_cases h : v.secenek_id = t <;> simp [vCountL, List.filter_cons, h, Nat.add_comm]

theorem uCountL_append (a b : List PollVote) (t : String) :
    uCountL (a ++ b) t = uCountL a t + uCountL b t := by
  simp [uCountL, List.filter_append]

theorem uCountL_cons (v : PollVote) (l : List PollVote) (t : String) :
    uCountL (v :: l) t = (if v.kullanici_id = t then 1 else 0) + uCountL l t := by
  by_cases h : v.kullanici_id = t <;> simp [uCountL, List.filter_cons, h, Nat.add_comm]

theorem vCountL_nil (t : String) : vCountL [] t = 0 := rfl

theorem uCountL_nil (t : String) : uCountL [] t = 0 := rfl

/-! ### Claim C8 -/

/-- Claim C8: voting on a valid option succeeds and keeps at most one vote
per user (the voter ends with exactly one vote entry, other users are
untouched); a prior vote is removed with the tally of its option
decremented before the new vote is appended and its option incremented, so
every option keeps a tally equal to its number of vote entries; and voting
twice for the same option leaves the tally of that option unchanged after
the second vote.  Hypotheses: option ids are unique (they are generated
uuids) and the voter held at most one vote, as the one-vote-per-user
invariant guarantees. -/
theorem C8_vote_semantics (p : Poll) (u sid : String) (now now2 : Nat)
    (hopt : p.secenekler.any (fun o => o.option_id = sid) = true)
    (hnd : (p.secenekler.map PollOption.option_id).Nodup)
    (huser : userVotes p u ≤ 1)
    (htally : tallyInv p) :
    (add_vote p u sid now).1 = true ∧
    userVotes (add_vote p u sid now).2 u = 1 ∧
    (∀ v, v ≠ u → userVotes (add_vote p u sid now).2 v = userVotes p v) ∧
    tallyInv (add_vote p u sid now).2 ∧
    getTally (add_vote (add_vote p u sid now).2 u sid now2).2 sid =
      getTally (add_vote p u sid now).2 sid := by
  have hoptF : ¬ (p.secenekler.any (fun o => o.option_id = sid) = false) := by
    simp [hopt]
  have htallyL : ∀ o ∈ p.secenekler, o.oy_sayisi = (vCountL p.oylar o.option_id : Int) :=
    htally
  cases hrm : remove_first_vote p.oylar u with
  | none =>
    have hnone := remove_first_vote_none_inv hrm
    have hres : add_vote p u sid now =
        (true, Poll.mk (inc_first p.secenekler sid)
          (p.oylar ++ [{ kullanici_id := u, secenek_id := sid, tarih := now }])) := by
      unfold add_vote
      rw [if_neg hoptF, hrm]
    rw [hres]
    dsimp only
    have hcnt : ∀ t, (vCountL (p.oylar ++
        [{ kullanici_id := u, secenek_id := sid, tarih := now }]) t : Int) =
        (vCountL p.oylar t : Int) + (if t = sid then 1 else 0) := by
      intro t
      rw [vCountL_append, vCountL_cons]
      by_cases hts : t = sid
      · rw [if_pos hts, if_pos hts.symm]
        push_cast
        simp [vCountL]
      · rw [if_neg hts, if_neg (fun he => hts he.symm)]
        push_cast
        simp [vCountL]
    refine ⟨rfl, ?_, ?_, ?_, ?_⟩
    · unfold userVotes
      dsimp only
      rw [List.filter_append]
      rw [show List.filter (fun oy => decide (oy.kullanici_id = u)) p.oylar = [] from
        List.filter_eq_nil.mpr (fun x hx => by simpa using hnone x hx)]
      simp
    · intro v hv
      unfold userVotes
      dsimp only
      rw [List.filter_append]
      have hne : ¬ (u = v) := fun he => hv he.symm
      rw [show List.filter (fun oy => decide (oy.kullanici_id = v))
          [({ kullanici_id := u, secenek_id := sid, tarih := now } : PollVote)] = []
        from by simp [hne]]
      simp
    · intro o ho
      exact tally_after_inc hnd htallyL hcnt o ho
    · have hrm2 : remove_first_vote (p.oylar ++
          [{ kullanici_id := u, secenek_id := sid, tarih := now }]) u =
          some ({ kullanici_id := u, secenek_id := sid, tarih := now },
            p.oylar ++ []) :=
        remove_first_vote_append hnone rfl
      have hany2 : ¬ ((inc_first p.secenekler sid).any
          (fun o => o.option_id = sid) = false) := by
        rw [any_id_inc]
        simp [hopt]
      have hres2 : add_vote (Poll.mk (inc_first p.secenekler sid)
            (p.oylar ++ [{ kullanici_id := u, secenek_id := sid, tarih := now }]))
            u sid now2 =
          (true, Poll.mk (inc_first (dec_first (inc_first p.secenekler sid) sid) sid)
            ((p.oylar ++ []) ++
              [{ kullanici_id := u, secenek_id := sid, tarih := now2 }])) := by
        unfold add_vote
        rw [if_neg hany2, hrm2]
      rw [hres2]
      dsimp only
      rw [inc_dec_cancel]
      rfl
  | some pr =>
    obtain ⟨eski, rest⟩ := pr
    obtain ⟨vpre, vpost, hsplit, hrest, heid, hvpre⟩ := remove_first_vote_eq_some hrm
    have huser2 : uCountL p.oylar u ≤ 1 := huser
    have hvpre0 : uCountL vpre u = 0 := uCountL_zero_iff.mpr hvpre
    have hcount : uCountL p.oylar u = uCountL vpre u + (1 + uCountL vpost u) := by
      rw [hsplit, uCountL_append, uCountL_cons, if_pos heid]
    have hvpost0 : uCountL vpost u = 0 := by omega
    have hvpost := uCountL_zero_iff.mp hvpost0
    have hrest0 : ∀ x ∈ vpre ++ vpost, x.kullanici_id ≠ u := by
      intro x hx
      rcases List.mem_append.mp hx with hx | hx
      · exact hvpre x hx
      · exact hvpost x hx
    have hres : add_vote p u sid now =
        (true, Poll.mk (inc_first (dec_first p.secenekler eski.secenek_id) sid)
          (rest ++ [{ kullanici_id := u, secenek_id := sid, tarih := now }])) := by
      unfold add_vote
      rw [if_neg hoptF, hrm]
    rw [hres]
    dsimp only
    subst hrest
    have hcnt : ∀ t, (vCountL ((vpre ++ vpost) ++
        [{ kullanici_id := u, secenek_id := sid, tarih := now }]) t : Int) =
        (vCountL p.oylar t : Int) - (if t = eski.secenek_id then 1 else 0) +
          (if t = sid then 1 else 0) := by
      intro t
      rw [hsplit]
      simp only [vCountL_append, vCountL_cons, vCountL_nil]
      by_cases h2 : t = sid
      · subst h2
        by_cases h1 : eski.secenek_id = t
        · simp only [h1]
          simp
          try omega
        · have h1b : ¬ (t = eski.secenek_id) := fun he => h1 he.symm
          simp [h1, h1b]
          try omega
      · have h2b : ¬ (sid = t) := fun he => h2 he.symm
        by_cases h1 : t = eski.secenek_id
        · subst h1
          simp [h2b, h2]
          try omega
        · have h1b : ¬ (eski.secenek_id = t) := fun he => h1 he.symm
          simp [h1, h1b, h2, h2b]
          try omega
    refine ⟨rfl, ?_, ?_, ?_, ?_⟩
    · unfold userVotes
      dsimp only
      change uCountL ((vpre ++ vpost) ++ _) u = 1
      rw [uCountL_append, uCountL_zero_iff.mpr hrest0]
      simp [uCountL]
    · intro v hv
      unfold userVotes
      dsimp only
      change uCountL ((vpre ++ vpost) ++ _) v = uCountL p.oylar v
      have hne : ¬ (u = v) := fun he => hv he.symm
      have heskine : ¬ (eski.kullanici_id = v) := by rw [heid]; exact hne
      rw [hsplit]
      simp only [uCountL_append, uCountL_cons, uCountL_nil]
      simp [hne, heskine]
      try omega
    · intro o ho
      exact tally_after_dec_inc hnd htallyL hcnt o ho
    · have hrm2 : remove_first_vote ((vpre ++ vpost) ++
          [{ kullanici_id := u, secenek_id := sid, tarih := now }]) u =
          some ({ kullanici_id := u, secenek_id := sid, tarih := now },
            (vpre ++ vpost) ++ []) :=
        remove_first_vote_append hrest0 rfl
      have hany2 : ¬ ((inc_first (dec_first p.secenekler eski.secenek_id) sid).any
          (fun o => o.option_id = sid) = false) := by
        rw [any_id_inc, any_id_dec]
        simp [hopt]
      have hres2 : add_vote (Poll.mk
            (inc_first (dec_first p.secenekler eski.secenek_id) sid)
            ((vpre ++ vpost) ++
              [{ kullanici_id := u, secenek_id := sid, tarih := now }])) u sid now2 =
          (true, Poll.mk (inc_first (dec_first
              (inc_first (dec_first p.secenekler eski.secenek_id) sid) sid) sid)
            (((vpre ++ vpost) ++ []) ++
              [{ kullanici_id := u, secenek_id := sid, tarih := now2 }])) := by
        unfold add_vote
        rw [if_neg hany2, hrm2]
      rw [hres2]
      dsimp only
      rw [inc_dec_cancel]
      rfl

/-- Witness for C8: user `u` voting twice on option `o1` of the two-option
poll `pollEx`; after the second vote the tally of `o1` is still 1. -/
theorem C8_vote_semantics_witness :
    (add_vote pollEx "u" "o1" 0).1 = true ∧
    userVotes (add_vote pollEx "u" "o1" 0).2 "u" = 1 ∧
    tallyInv (add_vote pollEx "u" "o1" 0).2 ∧
    getTally (add_vote (add_vote pollEx "u" "o1" 0).2 "u" "o1" 1).2 "o1" =
      getTally (add_vote pollEx "u" "o1" 0).2 "o1" := by
  have h := C8_vote_semantics pollEx "u" "o1" 0 1 (by decide) (by decide) (by decide)
    (by decide)
  exact ⟨h.1, h.2.1, h.2.2.2.1, h.2.2.2.2⟩

/-! ### Claim C9 -/

/-- Claim C9, counterexample: when the store scan raises, `get_all_groups`
catches the exception and answers exactly what a successful scan of an
empty store answers - a success page with no groups - instead of letting
the caller observe an error. -/
theorem C9_listing_swallows_scan_error :
    get_all_groups (.error "boom") 1 10 none none =
      { groups := [], total := 0, page := 1, per_page := 10, total_pages := 0 } ∧
    get_all_groups (.error "boom") 1 10 none none =
      get_all_groups (.ok []) 1 10 none none :=
  ⟨rfl, by decide⟩

/-- Claim C9 (amended): the four domain errors carry their stable HTTP
statuses (404/400/403/401) and any other exception reaching the boundary
handler is a generic 500 - but `get_all_groups` swallows every scan
exception internally and returns the same successful empty listing a scan
of an empty store would produce, so for that operation the caller sees
success, not an error. -/
theorem C9_error_statuses_and_listing_fallback :
    (∀ msg, httpStatus (ApiErr.notFound msg) = 404) ∧
    (∀ msg, httpStatus (ApiErr.validation msg) = 400) ∧
    (∀ msg, httpStatus (ApiErr.forbidden msg) = 403) ∧
    (∀ msg, httpStatus (ApiErr.authError msg) = 401) ∧
    (∀ e, boundaryStatus (PyExc.api e) = httpStatus e) ∧
    (∀ msg, boundaryStatus (PyExc.other msg) = 500) ∧
    (∀ e page pp s k, get_all_groups (.error e) page pp s k =
      get_all_groups (.ok []) page pp s k) := by
  refine ⟨fun _ => rfl, fun _ => rfl, fun _ => rfl, fun _ => rfl, fun _ => rfl,
    fun _ => rfl, ?_⟩
  intro e page pp s k
  unfold get_all_groups collect_groups
  simp only [List.foldl_nil]
  rcases Nat.eq_zero_or_pos pp with hpp | hpp
  · subst hpp; rfl
  · have hdiv : (0 + pp - 1) / pp = 0 := Nat.div_eq_of_lt (by omega)
    rw [hdiv]

/-! ### Claim C10 -/

theorem members_map_ids (users : String → Option UserRec) (l : List GroupMember) :
    ((l.filterMap (fun uye =>
      match users uye.kullanici_id with
      | none => none
      | some u => some { user_id := uye.kullanici_id, username := u.username,
                         profil_resmi_url := u.profil_resmi_url, rol := uye.rol,
                         durum := uye.durum, katilma_tarihi := uye.katilma_tarihi }
      )).map MemberDetail.user_id) =
      (l.filter (fun uye => (users uye.kullanici_id).isSome)).map
        GroupMember.kullanici_id := by
  induction l with
  | nil => rfl
  | cons uye rest ih =>
    cases hu : users uye.kullanici_id with
    | none => simp [List.filterMap_cons, List.filter_cons, hu, ih]
    | some urec => simp [List.filterMap_cons, List.filter_cons, hu, ih]

/-- Claim C10: the member listing counts `meta.total` and
`meta.total_pages` over the whole filtered member subsequence, resolves
only the page window against the user store, silently dropping window
members whose user record is missing - so the page may hold fewer than
min(per_page, total - (page-1)*per_page) entries - and the entries it does
return keep the member-list insertion order. -/
theorem C10_member_listing (g : Group) (page per_page : Nat)
    (status role : Option String) (users : String → Option UserRec)
    (hact : g.is_active = true) (hpage : 1 ≤ page) (hpp : 1 ≤ per_page) :
    ∃ mp, get_group_members g page per_page status role users = .ok mp ∧
      mp.total = (g.uyeler.filter (member_filter status role)).length ∧
      mp.total_pages = (mp.total + per_page - 1) / per_page ∧
      mp.members.map MemberDetail.user_id =
        ((((g.uyeler.filter (member_filter status role)).drop
            ((page - 1) * per_page)).take per_page).filter
          (fun uye => (users uye.kullanici_id).isSome)).map GroupMember.kullanici_id ∧
      mp.members.length ≤ min per_page (mp.total - (page - 1) * per_page) ∧
      (mp.members.map MemberDetail.user_id).Sublist
        (g.uyeler.map GroupMember.kullanici_id) := by
  unfold get_group_members
  rw [if_neg (by simp [hact])]
  dsimp only
  set filtered := g.uyeler.filter (member_filter status role) with hfiltered
  set start := (page - 1) * per_page with hstart
  set stop := min (start + per_page) filtered.length with hstop
  have hpaged : (filtered.drop start).take (stop - start) =
      (filtered.drop start).take per_page := by
    apply List.take_eq_take.mpr
    rw [List.length_drop]
    omega
  have hmap : (((filtered.drop start).take (stop - start)).filterMap (fun uye =>
      match users uye.kullanici_id with
      | none => none
      | some u => some { user_id := uye.kullanici_id, username := u.username,
                         profil_resmi_url := u.profil_resmi_url, rol := uye.rol,
                         durum := uye.durum, katilma_tarihi := uye.katilma_tarihi }
      )).map MemberDetail.user_id =
      (((filtered.drop start).take per_page).filter
        (fun uye => (users uye.kullanici_id).isSome)).map GroupMember.kullanici_id := by
    rw [hpaged, members_map_ids]
  refine ⟨_, rfl, rfl, rfl, hmap, ?_, ?_⟩
  · conv_lhs => rw [← List.length_map _ MemberDetail.user_id]
    rw [hmap, List.length_map]
    have hq : (((filtered.drop start).take per_page).filter
        (fun uye => (users uye.kullanici_id).isSome)).length ≤
        ((filtered.drop start).take per_page).length :=
      (List.filter_sublist _).length_le
    have hq2 : ((filtered.drop start).take per_page).length =
        min per_page (filtered.length - start) := by
      rw [List.length_take, List.length_drop]
    dsimp only
    omega
  · rw [hmap]
    have hsub : List.Sublist (((filtered.drop start).take per_page).filter
        (fun uye => (users uye.kullanici_id).isSome)) g.uyeler := by
      refine List.Sublist.trans (List.filter_sublist _) ?_
      refine List.Sublist.trans (List.take_sublist _ _) ?_
      refine List.Sublist.trans (List.drop_sublist _ _) ?_
      exact List.filter_sublist _
    exact hsub.map GroupMember.kullanici_id

/-- Witness for C10: listing the members of `gPend` against a user store
that only knows user `a`: the meta counts both members, but only the entry
of `a` is returned. -/
theorem C10_member_listing_witness :
    ∃ mp, get_group_members gPend 1 10 none none usersEx = .ok mp ∧
      mp.total = 2 ∧ mp.members.map MemberDetail.user_id = ["a"] := by
  obtain ⟨mp, hok, htot, htp, hmap, hlen, hsub⟩ :=
    C10_member_listing gPend 1 10 none none usersEx (by decide) (by decide) (by decide)
  refine ⟨mp, hok, ?_, ?_⟩
  · rw [htot]; rfl
  · rw [hmap]; rfl

end SocialApp
